import Mathlib

/-!
Verification of the AliasForge shell-config export/import engine.

The definitions below are a shallow embedding of the Electron main process
(`writeAliasesToShell`, `parseAliasesFromShell`, `getShellConfigPath`,
`getDefaultSettings`, `validateFilePath` and the `file:read` / `file:write` /
`file:backup` / `aliases:import` IPC handlers).  File contents are modelled as
`List Char` (JavaScript string operations used by the source — `indexOf`,
`substring`, `trimEnd`, `trim`, `split`, `startsWith`, `endsWith`, `slice`,
`replace` — are reimplemented below at the character level with ECMAScript
whitespace and line-terminator semantics).  The filesystem is modelled as an
association list of paths to contents together with injectable failure results
for `copyFile` and `writeFile`; clock values (`new Date().toISOString()`) and
generated ids are passed in as parameters.
-/

set_option maxRecDepth 100000

/-- Single-quote character (code point 39), kept symbolic. -/
def squote : Char := Char.ofNat 39

/-- Double-quote character (code point 34), kept symbolic. -/
def dquote : Char := Char.ofNat 34

/-- Backslash character (code point 92), kept symbolic. -/
def bslash : Char := Char.ofNat 92

/-- ESC control character (code point 27). -/
def escCh : Char := Char.ofNat 27

/-- BEL control character (code point 7). -/
def belCh : Char := Char.ofNat 7

/-- Opening curly brace (code point 123), kept symbolic. -/
def lbrace : Char := Char.ofNat 123

/-- Closing curly brace (code point 125), kept symbolic. -/
def rbrace : Char := Char.ofNat 125

/-- ECMAScript whitespace as used by `String.prototype.trim` / `trimEnd` and
the `\s` regex class: WhiteSpace plus LineTerminator code points. -/
def jsWs (c : Char) : Bool :=
  decide (c.toNat = 9 ∨ c.toNat = 10 ∨ c.toNat = 11 ∨ c.toNat = 12 ∨ c.toNat = 13 ∨
    c.toNat = 32 ∨ c.toNat = 160 ∨ c.toNat = 0x1680 ∨
    (0x2000 ≤ c.toNat ∧ c.toNat ≤ 0x200A) ∨ c.toNat = 0x2028 ∨ c.toNat = 0x2029 ∨
    c.toNat = 0x202F ∨ c.toNat = 0x205F ∨ c.toNat = 0x3000 ∨ c.toNat = 0xFEFF)

/-- ECMAScript line terminators, the code points the regex `.` does not match. -/
def isLineTerm (c : Char) : Bool :=
  decide (c.toNat = 10 ∨ c.toNat = 13 ∨ c.toNat = 0x2028 ∨ c.toNat = 0x2029)

/-- First character class of the alias-name pattern: `[A-Za-z_]`. -/
def isNameStart (c : Char) : Bool :=
  decide ((65 ≤ c.toNat ∧ c.toNat ≤ 90) ∨ (97 ≤ c.toNat ∧ c.toNat ≤ 122) ∨ c.toNat = 95)

/-- Later character class of the alias-name pattern: `[A-Za-z0-9_-]`. -/
def isNameChar (c : Char) : Bool :=
  decide ((65 ≤ c.toNat ∧ c.toNat ≤ 90) ∨ (97 ≤ c.toNat ∧ c.toNat ≤ 122) ∨
    (48 ≤ c.toNat ∧ c.toNat ≤ 57) ∨ c.toNat = 95 ∨ c.toNat = 45)

/-- Test of the alias-name regex from the source: `/^[A-Za-z_][A-Za-z0-9_-]*$/`. -/
def validNameL : List Char → Bool
  | [] => false
  | c :: rest => isNameStart c && rest.all isNameChar

/-- Decides whether the first list is an initial segment of the second
(character-level model of JavaScript `String.prototype.startsWith`). -/
def leads : List Char → List Char → Bool
  | [], _ => true
  | _ :: _, [] => false
  | a :: as, b :: bs => if a = b then leads as bs else false

/-- Index of the first occurrence of `needle` in the haystack, or `none`
(character-level model of JavaScript `String.prototype.indexOf`, with `none`
standing for the return value `-1`). -/
def firstIdx (needle : List Char) : List Char → Option Nat
  | [] => if leads needle [] then some 0 else none
  | c :: rest =>
    if leads needle (c :: rest) then some 0
    else (firstIdx needle rest).map (fun n => n + 1)

/-- Tests whether `needle` occurs in the haystack (model of `String.prototype.includes`). -/
def hasSubL (needle hay : List Char) : Bool := (firstIdx needle hay).isSome

/-- Number of positions at which `needle` occurs in the haystack. -/
def countSub (needle : List Char) : List Char → Nat
  | [] => if leads needle [] then 1 else 0
  | c :: rest => (if leads needle (c :: rest) then 1 else 0) + countSub needle rest

/-- Model of JavaScript `String.prototype.split` with separator `"\n"`. -/
def splitNl : List Char → List (List Char)
  | [] => [[]]
  | c :: rest =>
    if c = '\n' then [] :: splitNl rest
    else
      match splitNl rest with
      | [] => [[c]]
      | g :: gs => (c :: g) :: gs

/-- Model of JavaScript `String.prototype.trimEnd`. -/
def jsTrimEndL (l : List Char) : List Char := (l.reverse.dropWhile jsWs).reverse

/-- Model of JavaScript `String.prototype.trim`. -/
def jsTrimL (l : List Char) : List Char := jsTrimEndL (l.dropWhile jsWs)

/-- Model of `command.replace(/'/g, "'\\''")` from the Unix statement renderer:
every single quote becomes quote-backslash-quote-quote. -/
def escapeSq : List Char → List Char
  | [] => []
  | c :: rest =>
    (if c = squote then [squote, bslash, squote, squote] else [c]) ++ escapeSq rest

/-- Values of `process.platform` relevant to the source. -/
inductive Platform where
  | darwin
  | linux
  | win32
deriving DecidableEq

/-- Structured alias record as built and consumed by the main process. -/
structure AliasRecord where
  id : String
  name : String
  command : String
  description : String
  tags : List String
  enabled : Bool
  source : String
deriving DecidableEq

/-- Start marker of the managed block. -/
def blockStartL : List Char := "# >>> AliasForge managed aliases >>>".data

/-- End marker of the managed block. -/
def blockEndL : List Char := "# <<< AliasForge managed aliases <<<".data

/-- Notice line written right after the start marker. -/
def managedNoticeL : List Char := "# Managed by AliasForge - do not edit manually".data

/-- Literal prefix of the timestamp line of the managed block. -/
def lastUpdatedL : List Char := "# Last updated: ".data

/-- Keyword prefix of a rendered (and of an imported) alias statement. -/
def aliasKwL : List Char := "alias ".data

/-- Rendered Unix alias statement, without the trailing newline:
`alias ${alias.name}='${alias.command.replace(/'/g, "'\\''")}'`. -/
def unixAliasLine (a : AliasRecord) : List Char :=
  aliasKwL ++ a.name.data ++ ['='] ++ [squote] ++ escapeSq a.command.data ++ [squote]

/-- Rendered PowerShell statement, without the trailing newline:
`function ${alias.name} { ${alias.command} }`. -/
def psFunctionLine (a : AliasRecord) : List Char :=
  "function ".data ++ a.name.data ++ [' ', lbrace, ' '] ++ a.command.data ++ [' ', rbrace]

/-- Optional description comment emitted before a statement when
`alias.description` is truthy (a nonempty string). -/
def descCommentL (a : AliasRecord) : List Char :=
  if a.description = "" then [] else '#' :: ' ' :: a.description.data ++ ['\n']

/-- One loop iteration of the Unix rendering branch of `writeAliasesToShell`. -/
def stmtPieceUnix (a : AliasRecord) : List Char :=
  descCommentL a ++ unixAliasLine a ++ ['\n']

/-- One loop iteration of the PowerShell rendering branch of `writeAliasesToShell`. -/
def stmtPiecePs (a : AliasRecord) : List Char :=
  descCommentL a ++ psFunctionLine a ++ ['\n']

/-- Statement lines accumulated by the rendering loop of `writeAliasesToShell`:
the enabled aliases are rendered in order, in PowerShell form exactly when the
platform is win32 and the shell is powershell, in Unix form otherwise. -/
def stmtsFor (platform : Platform) (shellName : String) (aliases : List AliasRecord) :
    List Char :=
  if platform = Platform.win32 ∧ shellName = "powershell" then
    ((aliases.filter (fun a => a.enabled)).map stmtPiecePs).flatten
  else
    ((aliases.filter (fun a => a.enabled)).map stmtPieceUnix).flatten

/-- The `aliasBlock` string assembled by `writeAliasesToShell`, with the
`new Date().toISOString()` value passed in as `t`. -/
def aliasBlockL (platform : Platform) (shellName : String) (aliases : List AliasRecord)
    (t : List Char) : List Char :=
  ['\n'] ++ blockStartL ++ ['\n'] ++ managedNoticeL ++ ['\n'] ++
    lastUpdatedL ++ t ++ ['\n', '\n'] ++
    stmtsFor platform shellName aliases ++ ['\n'] ++ blockEndL ++ ['\n']

/-- Removal of the old managed block in `writeAliasesToShell`: both markers are
located with `indexOf` from position 0 and, when both are found, the span from
the start marker through the end of the end marker is cut out (no check that
the start lies before the end, exactly as in the source). -/
def removeBlockL (content : List Char) : List Char :=
  match firstIdx blockStartL content, firstIdx blockEndL content with
  | some s, some e => content.take s ++ content.drop (e + blockEndL.length)
  | _, _ => content

/-- The full `newContent` computed by `writeAliasesToShell`:
`existingContent.trimEnd() + aliasBlock` after block removal. -/
def exportContentL (existingContent : List Char) (platform : Platform)
    (shellName : String) (aliases : List AliasRecord) (t : List Char) : List Char :=
  jsTrimEndL (removeBlockL existingContent) ++ aliasBlockL platform shellName aliases t

/-- Length of the match, at the head of the list, of the OSC-stripping regex
`/\x1b\][^\x07\x1b]*(?:\x07|\x1b\\)/` used on interactive-shell output. -/
def matchOscLen (l : List Char) : Option Nat :=
  match l with
  | a :: b :: rest =>
    if a = escCh ∧ b = ']' then
      let k := (rest.takeWhile (fun c => if c = belCh ∨ c = escCh then false else true)).length
      match rest.drop k with
      | t :: rest2 =>
        if t = belCh then some (2 + k + 1)
        else if t = escCh then
          match rest2 with
          | u :: _ => if u = bslash then some (2 + k + 2) else none
          | [] => none
        else none
      | [] => none
    else none
  | _ => none

/-- Length of the match, at the head of the list, of the CSI-stripping regex
`/\x1b\[[0-9;]*[A-Za-z]/`. -/
def matchCsiLen (l : List Char) : Option Nat :=
  match l with
  | a :: b :: rest =>
    if a = escCh ∧ b = '[' then
      let k := (rest.takeWhile
        (fun c => if (48 ≤ c.toNat ∧ c.toNat ≤ 57) ∨ c.toNat = 59 then true else false)).length
      match rest.drop k with
      | t :: _ =>
        if (65 ≤ t.toNat ∧ t.toNat ≤ 90) ∨ (97 ≤ t.toNat ∧ t.toNat ≤ 122) then
          some (2 + k + 1)
        else none
      | [] => none
    else none
  | _ => none

/-- Left-to-right global `replace`-with-empty scan: at each position either the
matcher matches and the matched span is removed, or the character is kept. -/
def scanRemoveGo (matcher : List Char → Option Nat) : Nat → List Char → List Char
  | 0, l => l
  | _ + 1, [] => []
  | fuel + 1, c :: rest =>
    match matcher (c :: rest) with
    | some n => scanRemoveGo matcher fuel ((c :: rest).drop n)
    | none => c :: scanRemoveGo matcher fuel rest

/-- Removal of OSC escape sequences (first cleaning pass). -/
def removeOsc (l : List Char) : List Char := scanRemoveGo matchOscLen (l.length + 1) l

/-- Removal of CSI escape sequences (second cleaning pass). -/
def removeCsi (l : List Char) : List Char := scanRemoveGo matchCsiLen (l.length + 1) l

/-- Removal of the remaining control characters, the third cleaning pass:
`replace(/[\x00-\x08\x0B\x0C\x0E-\x1F\x7F]/g, "")`. -/
def removeStrippedControls (l : List Char) : List Char :=
  l.filter (fun c =>
    if c.toNat ≤ 8 ∨ c.toNat = 11 ∨ c.toNat = 12 ∨ (14 ≤ c.toNat ∧ c.toNat ≤ 31) ∨
        c.toNat = 127 then false else true)

/-- Model of `line.split(/\s{2,}/)`: segments are separated by maximal runs of
two or more whitespace characters. -/
def splitWs2Go : Nat → List Char → List (List Char)
  | 0, l => [l]
  | _ + 1, [] => [[]]
  | fuel + 1, c :: rest =>
    if jsWs c && (match rest with | d :: _ => jsWs d | [] => false) then
      [] :: splitWs2Go fuel (rest.dropWhile jsWs)
    else
      match splitWs2Go fuel rest with
      | [] => [[c]]
      | g :: gs => (c :: g) :: gs

/-- Entry point of the `\s{2,}` splitter. -/
def splitWs2 (l : List Char) : List (List Char) := splitWs2Go (l.length + 1) l

/-- Model of `line.match(/^([^=]+)=(.+)$/)`: the pattern splits at the first
`=`, requires a nonempty part on each side, and fails when the right part
contains a line terminator (which `.` does not match). -/
def matchNameEq (line : List Char) : Option (List Char × List Char) :=
  match firstIdx ['='] line with
  | some i =>
    if i = 0 then none
    else
      let rest := line.drop (i + 1)
      if rest.isEmpty then none
      else if rest.any isLineTerm then none
      else some (line.take i, rest)
  | none => none

/-- Unix branch of the import loop: split at `=`, trim both parts, strip one
layer of matching surrounding quotes from the command, then accept the record
only when the name matches the valid-name regex. -/
def unixParse (line : List Char) : Option (List Char × List Char) :=
  match matchNameEq line with
  | some nc =>
    let name := jsTrimL nc.1
    let command0 := jsTrimL nc.2
    let command :=
      if (leads [squote] command0 && decide (command0.getLast? = some squote)) ||
          (leads [dquote] command0 && decide (command0.getLast? = some dquote)) then
        (command0.drop 1).dropLast
      else command0
    if validNameL name then some (name, command) else none
  | none => none

/-- CMD (`doskey /macros`) branch of the import loop: split at `=` and trim;
no name validation is performed. -/
def cmdParse (line : List Char) : Option (List Char × List Char) :=
  match matchNameEq line with
  | some nc => some (jsTrimL nc.1, jsTrimL nc.2)
  | none => none

/-- PowerShell branch of the import loop: split on two-or-more whitespace into
columns and take the first two; no name validation is performed. -/
def psParse (line : List Char) : Option (List Char × List Char) :=
  match splitWs2 line with
  | p0 :: p1 :: _ => some (jsTrimL p0, jsTrimL p1)
  | _ => none

/-- Per-line processing of `parseAliasesFromShell`: strip a leading `alias `
prefix, then dispatch on platform and shell name exactly as the source does. -/
def parseOneLine (platform : Platform) (shellName : String) (line0 : List Char) :
    Option (List Char × List Char) :=
  let line := if leads aliasKwL line0 then jsTrimL (line0.drop 6) else line0
  if platform = Platform.win32 ∧ shellName = "powershell" then psParse line
  else if platform = Platform.win32 then cmdParse line
  else unixParse line

/-- Record pushed by the import loop for a parsed (name, command) pair; the
generated id (built in the source from `Date.now()`, the loop index and
`Math.random()`) is supplied by `idGen` applied to the loop index. -/
def mkImported (id : String) (nc : List Char × List Char) : AliasRecord :=
  AliasRecord.mk id (String.mk nc.1) (String.mk nc.2) "" ["imported"] true "system"

/-- The import loop of `parseAliasesFromShell` over the cleaned, trimmed,
nonempty lines, carrying the loop index used for id generation. -/
def parseLinesGo (platform : Platform) (shellName : String) (idGen : Nat → String) :
    Nat → List (List Char) → List AliasRecord
  | _, [] => []
  | i, line :: rest =>
    if line.isEmpty then parseLinesGo platform shellName idGen (i + 1) rest
    else
      match parseOneLine platform shellName line with
      | some nc => mkImported (idGen i) nc :: parseLinesGo platform shellName idGen (i + 1) rest
      | none => parseLinesGo platform shellName idGen (i + 1) rest

/-- Model of `parseAliasesFromShell`: the result of invoking the shell is
passed in as `execResult` (an error models a rejected `execAsync`, whose catch
makes the function return the empty list); on success the stdout text is
cleaned of OSC/CSI/control sequences, split into trimmed nonempty lines, and
parsed line by line. -/
def parseAliasesFromShell (platform : Platform) (shellName : String)
    (execResult : Except String (String × String)) (idGen : Nat → String) :
    List AliasRecord :=
  match execResult with
  | Except.error _ => []
  | Except.ok out =>
    let cleaned := removeStrippedControls (removeCsi (removeOsc out.1.data))
    let lines := ((splitNl cleaned).map jsTrimL).filter (fun l => decide (0 < l.length))
    parseLinesGo platform shellName idGen 0 lines

/-- Result shape returned by the `aliases:import` IPC handler. -/
structure ImportResult where
  success : Bool
  aliases : List AliasRecord
  count : Nat
  error : Option String
deriving DecidableEq

/-- Model of the `aliases:import` IPC handler.  Its try/catch would produce a
`success := false` result only if `parseAliasesFromShell` threw, which it never
does (its own catch returns the empty list), so the success branch is the total
behavior. -/
def aliasesImportHandler (platform : Platform) (shellName : String)
    (execResult : Except String (String × String)) (idGen : Nat → String) : ImportResult :=
  let aliases := parseAliasesFromShell platform shellName execResult idGen
  ImportResult.mk true aliases aliases.length none

/-- Filesystem model: an association list from paths to file contents (most
recent entry first), plus injectable failure results for `fs.copyFile` and
`fs.writeFile` (modelling, e.g., permission or disk-full errors). -/
structure Fs where
  files : List (String × String)
  copyFail : Option String
  writeFail : Option String
deriving DecidableEq

/-- Lookup of a file's content in the association list. -/
def lookupFile : List (String × String) → String → Option String
  | [], _ => none
  | e :: rest, p => if e.1 = p then some e.2 else lookupFile rest p

/-- Removal of all entries for a path. -/
def eraseFile (m : List (String × String)) (p : String) : List (String × String) :=
  m.filter (fun e => decide (e.1 ≠ p))

/-- Overwriting store of a file. -/
def setFile (m : List (String × String)) (p c : String) : List (String × String) :=
  (p, c) :: eraseFile m p

/-- Model of `fs.copyFile src dst`: fails with the injected error when one is
set, fails with ENOENT when the source is missing, copies otherwise. -/
def fsCopyFile (fs : Fs) (src dst : String) : Except String Fs :=
  match fs.copyFail with
  | some e => Except.error e
  | none =>
    match lookupFile fs.files src with
    | some c => Except.ok (Fs.mk (setFile fs.files dst c) fs.copyFail fs.writeFail)
    | none => Except.error "ENOENT"

/-- Model of `fs.readFile`: fails with ENOENT when the file is missing. -/
def fsReadFile (fs : Fs) (p : String) : Except String String :=
  match lookupFile fs.files p with
  | some c => Except.ok c
  | none => Except.error "ENOENT"

/-- Model of `fs.writeFile`: fails with the injected error when one is set. -/
def fsWriteFile (fs : Fs) (p c : String) : Except String Fs :=
  match fs.writeFail with
  | some e => Except.error e
  | none => Except.ok (Fs.mk (setFile fs.files p c) fs.copyFail fs.writeFail)

/-- Model of `getShellConfigPath` (with `path.join` rendered as separator
concatenation and the home directory passed in). -/
def getShellConfigPath (platform : Platform) (home : String) (shellName : String) : String :=
  if platform = Platform.win32 then
    if shellName = "powershell" then
      home ++ "\\Documents\\PowerShell\\Microsoft.PowerShell_profile.ps1"
    else home ++ "\\aliases.cmd"
  else
    if shellName = "zsh" then home ++ "/.zshrc"
    else if shellName = "bash" then home ++ "/.bashrc"
    else if shellName = "fish" then home ++ "/.config/fish/config.fish"
    else home ++ "/.bashrc"

/-- Model of `toISOString().replace(/[:.]/g, "-")`. -/
def isoSanitize (t : String) : String :=
  String.mk (t.data.map (fun c => if c = ':' ∨ c = '.' then '-' else c))

/-- String-level wrapper of the `newContent` computation of `writeAliasesToShell`. -/
def exportContentStr (existingContent : String) (platform : Platform)
    (shellName : String) (aliases : List AliasRecord) (t : String) : String :=
  String.mk (exportContentL existingContent.data platform shellName aliases t.data)

/-- Model of `writeAliasesToShell`.  The two `new Date()` calls (backup-name
timestamp and block timestamp) are passed in as `tBackup` and `tBlock`.  The
backup `copyFile` sits in a try/catch whose catch only logs ("No existing
config to backup"), so every copy failure is swallowed and execution continues;
a read failure yields empty existing content; a write failure propagates to the
outer catch, which rethrows `Failed to update shell configuration` (modelled as
an error result). -/
def writeAliasesToShell (fs : Fs) (platform : Platform) (home : String)
    (aliases : List AliasRecord) (shellName : String) (tBackup tBlock : String) :
    Except String (String × String) × Fs :=
  let configPath := getShellConfigPath platform home shellName
  let backupPath := configPath ++ ".aliasforge-backup-" ++ isoSanitize tBackup
  let fs1 :=
    match fsCopyFile fs configPath backupPath with
    | Except.ok fs2 => fs2
    | Except.error _ => fs
  let existingContent :=
    match fsReadFile fs1 configPath with
    | Except.ok c => c
    | Except.error _ => ""
  let newContent := exportContentStr existingContent platform shellName aliases tBlock
  match fsWriteFile fs1 configPath newContent with
  | Except.ok fs2 => (Except.ok (configPath, backupPath), fs2)
  | Except.error _ => (Except.error "Failed to update shell configuration", fs1)

/-- Application settings as produced by `getDefaultSettings`. -/
structure AppSettings where
  theme : String
  defaultPlatform : String
  exportPaths : List (String × String)
  exportStrategy : String
  backupCount : Nat
  openOnLogin : Bool
  minimizeToTray : Bool
deriving DecidableEq

/-- Model of `getDefaultSettings`. -/
def getDefaultSettings (platform : Platform) (home : String) : AppSettings :=
  let exportPaths :=
    match platform with
    | Platform.win32 =>
      [("powershell", home ++ "\\Documents\\PowerShell\\Microsoft.PowerShell_profile.ps1"),
       ("cmd", home ++ "\\aliases.cmd")]
    | _ =>
      [("zsh", home ++ "/.zshrc"), ("bash", home ++ "/.bashrc"),
       ("fish", home ++ "/.config/fish/config.fish")]
  AppSettings.mk "dark" "all" exportPaths "dedicated" 5 false false

/-- Model of `validateFilePath`: normalize (the platform-dependent
`path.normalize` is passed in as a function) and throw `Invalid file path`
when the normalized path contains `..`. -/
def validateFilePath (normalize : String → String) (filePath : String) :
    Except String String :=
  let normalizedPath := normalize filePath
  if hasSubL "..".data normalizedPath.data then Except.error "Invalid file path"
  else Except.ok normalizedPath

/-- Result shape returned by the `file:read` / `file:write` / `file:backup`
IPC handlers. -/
structure IpcFileResult where
  success : Bool
  content : Option String
  error : Option String
  backupPath : Option String
deriving DecidableEq

/-- Model of the `file:read` IPC handler; the returned list collects the paths
on which a filesystem operation was attempted. -/
def fileReadHandler (normalize : String → String) (fs : Fs) (filePath : String) :
    IpcFileResult × Fs × List String :=
  match validateFilePath normalize filePath with
  | Except.error e => (IpcFileResult.mk false none (some e) none, fs, [])
  | Except.ok p =>
    match fsReadFile fs p with
    | Except.ok c => (IpcFileResult.mk true (some c) none none, fs, [p])
    | Except.error e => (IpcFileResult.mk false none (some e) none, fs, [p])

/-- Model of the `file:write` IPC handler. -/
def fileWriteHandler (normalize : String → String) (fs : Fs) (filePath content : String) :
    IpcFileResult × Fs × List String :=
  match validateFilePath normalize filePath with
  | Except.error e => (IpcFileResult.mk false none (some e) none, fs, [])
  | Except.ok p =>
    match fsWriteFile fs p content with
    | Except.ok fs2 => (IpcFileResult.mk true none none none, fs2, [p])
    | Except.error e => (IpcFileResult.mk false none (some e) none, fs, [p])

/-- Model of the `file:backup` IPC handler; note its backup suffix is
`.backup-`, unlike the `.aliasforge-backup-` suffix used by the export path. -/
def fileBackupHandler (normalize : String → String) (fs : Fs) (filePath : String)
    (tBackup : String) : IpcFileResult × Fs × List String :=
  match validateFilePath normalize filePath with
  | Except.error e => (IpcFileResult.mk false none (some e) none, fs, [])
  | Except.ok p =>
    let backupPath := p ++ ".backup-" ++ isoSanitize tBackup
    match fsCopyFile fs p backupPath with
    | Except.ok fs2 => (IpcFileResult.mk true none none (some backupPath), fs2, [p])
    | Except.error e => (IpcFileResult.mk false none (some e) none, fs, [p])

/-- Number of export-style backup snapshots present for a target path. -/
def countBackups (m : List (String × String)) (configPath : String) : Nat :=
  m.countP (fun e => leads (configPath.data ++ ".aliasforge-backup-".data) e.1.data)

/-- A needle without a newline matches at the head of `P ++ '\n' :: R` exactly
when it matches at the head of `P`. -/
theorem leads_append_cons_nl : ∀ (M P R : List Char), '\n' ∉ M →
    leads M (P ++ '\n' :: R) = leads M P
  | [], _, _, _ => by simp [leads]
  | a :: as, [], R, hM => by
    have ha : a ≠ '\n' := fun h => hM (by simp [h])
    simp [leads, ha]
  | a :: as, p :: P', R, hM => by
    simp only [List.cons_append, leads]
    by_cases h : a = p
    · simp only [h, if_true]
      exact leads_append_cons_nl as P' R (fun hm => hM (List.mem_cons_of_mem _ hm))
    · simp [h]

/-- A list is an initial segment of itself followed by anything. -/
theorem leads_self_append : ∀ (M X : List Char), leads M (M ++ X) = true
  | [], _ => rfl
  | a :: as, X => by simp [leads, leads_self_append as X]

/-- Occurrence counting splits at a newline separator for newline-free needles. -/
theorem countSub_append_cons_nl : ∀ (M P R : List Char), M ≠ [] → '\n' ∉ M →
    countSub M (P ++ '\n' :: R) = countSub M P + countSub M R
  | [], _, _, hne, _ => absurd rfl hne
  | a :: as, [], R, _, hM => by
    have ha : a ≠ '\n' := fun h => hM (by simp [h])
    simp [countSub, leads, ha]
  | a :: as, p :: P', R, hne, hM => by
    have h1 := leads_append_cons_nl (a :: as) (p :: P') R hM
    simp only [List.cons_append] at h1 ⊢
    simp only [countSub]
    rw [h1, countSub_append_cons_nl (a :: as) P' R hne hM]
    omega

/-- A needle that occurs nowhere has no first occurrence. -/
theorem firstIdx_none_of_countSub : ∀ (M X : List Char), countSub M X = 0 →
    firstIdx M X = none
  | M, [], h => by
    cases hl : leads M [] with
    | true => simp [countSub, hl] at h
    | false => simp [firstIdx, hl]
  | M, c :: rest, h => by
    simp only [countSub] at h
    cases hl : leads M (c :: rest) with
    | true => simp [hl] at h
    | false =>
      have hr : countSub M rest = 0 := by simpa [hl] using h
      simp [firstIdx, hl, firstIdx_none_of_countSub M rest hr]

/-- First-occurrence search shifts past a needle-free chunk ending in a newline. -/
theorem firstIdx_append_cons_nl : ∀ (M P R : List Char), M ≠ [] → '\n' ∉ M →
    firstIdx M P = none →
    firstIdx M (P ++ '\n' :: R) = (firstIdx M R).map (fun n => n + (P.length + 1))
  | [], _, _, hne, _, _ => absurd rfl hne
  | a :: as, [], R, _, hM, _ => by
    have ha : a ≠ '\n' := fun h => hM (by simp [h])
    simp only [List.nil_append, firstIdx, leads, ha, if_false]
    cases firstIdx (a :: as) R <;> simp
  | a :: as, p :: P', R, hne, hM, hP => by
    have h1 := leads_append_cons_nl (a :: as) (p :: P') R hM
    simp only [List.cons_append] at h1 ⊢
    simp only [firstIdx] at hP ⊢
    rw [h1]
    cases hl : leads (a :: as) (p :: P') with
    | true => rw [hl] at hP; simp at hP
    | false =>
      rw [hl] at hP
      simp only [Bool.false_eq_true, if_false] at hP ⊢
      have hP' : firstIdx (a :: as) P' = none := by
        cases h : firstIdx (a :: as) P' with
        | none => rfl
        | some v => rw [h] at hP; simp at hP
      rw [firstIdx_append_cons_nl (a :: as) P' R hne hM hP']
      cases firstIdx (a :: as) R with
      | none => rfl
      | some v => simp; omega

/-- When the needle matches at the head, the first occurrence is at index 0. -/
theorem firstIdx_of_leads (M l : List Char) (h : leads M l = true) :
    firstIdx M l = some 0 := by
  cases l <;> simp [firstIdx, h]

/-- Taking the length of the left summand of an append returns it. -/
theorem take_len_append : ∀ (l m : List Char), (l ++ m).take l.length = l
  | [], _ => rfl
  | a :: l', m => by simp [take_len_append l' m]

/-- Taking past the left summand of an append takes from the right summand. -/
theorem take_len_append_plus : ∀ (l m : List Char) (n : Nat),
    (l ++ m).take (l.length + n) = l ++ m.take n
  | [], _, _ => by simp
  | a :: l', m, n => by
    simp only [List.cons_append, List.length_cons]
    have h : l'.length + 1 + n = (l'.length + n) + 1 := by omega
    rw [h]
    simp [take_len_append_plus l' m n]

/-- Dropping the length of the left summand of an append returns the right one. -/
theorem drop_len_append : ∀ (l m : List Char), (l ++ m).drop l.length = m
  | [], _ => rfl
  | a :: l', m => by simp [drop_len_append l' m]

/-- Dropping past the left summand of an append drops within the right summand. -/
theorem drop_len_append_plus : ∀ (l m : List Char) (n : Nat),
    (l ++ m).drop (l.length + n) = m.drop n
  | [], _, _ => by simp
  | a :: l', m, n => by
    simp only [List.cons_append, List.length_cons]
    have h : l'.length + 1 + n = (l'.length + n) + 1 := by omega
    rw [h]
    simp [drop_len_append_plus l' m n]

/-- Dropping while a predicate holds is the identity on lists all of whose
elements fail the predicate. -/
theorem dropWhile_of_all_false {p : Char → Bool} :
    ∀ (m : List Char), (∀ a ∈ m, p a = false) → m.dropWhile p = m
  | [], _ => rfl
  | a :: m', h => by
    have ha : p a = false := h a (by simp)
    simp [List.dropWhile, ha]

/-- Dropping while a predicate holds empties a list all of whose elements
satisfy the predicate. -/
theorem dropWhile_nil_of_all {p : Char → Bool} :
    ∀ (m : List Char), (∀ a ∈ m, p a = true) → m.dropWhile p = []
  | [], _ => rfl
  | a :: m', h => by
    have ha : p a = true := h a (by simp)
    have hr := dropWhile_nil_of_all m' (fun c hc => h c (List.mem_cons_of_mem a hc))
    simp [List.dropWhile, ha, hr]

/-- Trailing whitespace is absorbed by `trimEnd`. -/
theorem trimEnd_append_ws (x w : List Char) (hw : ∀ c ∈ w, jsWs c = true) :
    jsTrimEndL (x ++ w) = jsTrimEndL x := by
  unfold jsTrimEndL
  rw [List.reverse_append, List.dropWhile_append]
  have hnil : w.reverse.dropWhile jsWs = [] :=
    dropWhile_nil_of_all w.reverse (fun c hc => hw c (List.mem_reverse.mp hc))
  simp [hnil]

/-- Dropping-while is idempotent. -/
theorem dropWhile_idem {p : Char → Bool} : ∀ (l : List Char),
    (l.dropWhile p).dropWhile p = l.dropWhile p
  | [] => rfl
  | a :: l' => by
    cases h : p a with
    | true => simp [List.dropWhile, h, dropWhile_idem l']
    | false => simp [List.dropWhile, h]

/-- The `trimEnd` model is idempotent. -/
theorem trimEnd_idem (l : List Char) : jsTrimEndL (jsTrimEndL l) = jsTrimEndL l := by
  unfold jsTrimEndL
  rw [List.reverse_reverse, dropWhile_idem]

/-- Splitting on newlines never yields the empty list of lines. -/
theorem splitNl_ne_nil (l : List Char) : splitNl l ≠ [] := by
  cases l with
  | nil => simp [splitNl]
  | cons c rest =>
    simp only [splitNl]
    split
    · simp
    · split <;> simp

/-- Splitting on newlines is compatible with concatenation at a newline. -/
theorem splitNl_append_cons : ∀ (X Y : List Char),
    splitNl (X ++ '\n' :: Y) = splitNl X ++ splitNl Y
  | [], Y => by simp [splitNl]
  | c :: X', Y => by
    simp only [List.cons_append, splitNl, List.append_eq]
    by_cases h : c = '\n'
    · simp [h, splitNl_append_cons X' Y]
    · rw [splitNl_append_cons X' Y]
      simp only [h, if_false]
      obtain ⟨g, gs, hg⟩ : ∃ g gs, splitNl X' = g :: gs := by
        cases hs : splitNl X' with
        | nil => exact absurd hs (splitNl_ne_nil X')
        | cons g gs => exact ⟨g, gs, rfl⟩
      rw [hg]
      simp

/-- A newline-free text is a single line. -/
theorem splitNl_of_not_nl : ∀ (l : List Char), '\n' ∉ l → splitNl l = [l]
  | [], _ => rfl
  | c :: rest, h => by
    have hc : c ≠ '\n' := fun hh => h (by simp [hh])
    have hr := splitNl_of_not_nl rest (fun hm => h (List.mem_cons_of_mem c hm))
    simp [splitNl, hc, hr]

/-- Recognizer of the timestamp line of the managed block. -/
def isTsLine (l : List Char) : Bool := leads lastUpdatedL l

/-- Linewise comparison that allows exactly the timestamp lines to differ. -/
def eqLinesModTs : List (List Char) → List (List Char) → Bool
  | [], [] => true
  | a :: as, b :: bs =>
    (if a = b then true else isTsLine a && isTsLine b) && eqLinesModTs as bs
  | _, _ => false

/-- Two file contents are byte-identical apart from `# Last updated: ` lines:
they have the same number of newline-separated lines, and corresponding lines
are equal except that two timestamp lines may differ. -/
def eqModTs (x y : List Char) : Bool := eqLinesModTs (splitNl x) (splitNl y)

/-- The linewise comparison is reflexive. -/
theorem eqLines_refl : ∀ (L : List (List Char)), eqLinesModTs L L = true
  | [] => rfl
  | a :: as => by simp [eqLinesModTs, eqLines_refl as]

/-- Replacing one timestamp line keeps the comparison true. -/
theorem eqLines_middle : ∀ (C : List (List Char)) (x y : List Char)
    (D : List (List Char)), isTsLine x = true → isTsLine y = true →
    eqLinesModTs (C ++ x :: D) (C ++ y :: D) = true
  | [], x, y, D, hx, hy => by
    by_cases h : x = y
    · simp [eqLinesModTs, h, eqLines_refl D]
    · simp [eqLinesModTs, h, hx, hy, eqLines_refl D]
  | c :: C', x, y, D, hx, hy => by
    simp [eqLinesModTs, eqLines_middle C' x y D hx hy]

/-- The inner text of the managed block, from after its leading newline up to
the newline before the end marker (a reassociation of `aliasBlockL`). -/
def mid0L (stmts t : List Char) : List Char :=
  blockStartL ++ '\n' ::
    (managedNoticeL ++ '\n' :: (lastUpdatedL ++ t ++ '\n' :: '\n' :: stmts))

/-- The rendered block decomposes around its final end-marker line. -/
theorem aliasBlock_shape (platform : Platform) (shellName : String)
    (aliases : List AliasRecord) (t : List Char) :
    aliasBlockL platform shellName aliases t =
      '\n' :: (mid0L (stmtsFor platform shellName aliases) t ++
        '\n' :: (blockEndL ++ ['\n'])) := by
  simp [aliasBlockL, mid0L, List.append_assoc]

/-- The start marker is not the empty string. -/
theorem blockStart_ne_nil : blockStartL ≠ [] := by decide

/-- The end marker is not the empty string. -/
theorem blockEnd_ne_nil : blockEndL ≠ [] := by decide

/-- The start marker contains no newline. -/
theorem nl_not_mem_blockStart : '\n' ∉ blockStartL := by decide

/-- The end marker contains no newline. -/
theorem nl_not_mem_blockEnd : '\n' ∉ blockEndL := by decide

/-- A nonempty needle never occurs in the empty text. -/
theorem countSub_nil_of_ne (M : List Char) (h : M ≠ []) : countSub M [] = 0 := by
  cases M with
  | nil => exact absurd rfl h
  | cons a as => simp [countSub, leads]

/-- A nonempty, newline-free needle is counted segmentwise over the inner
block text. -/
theorem countSub_mid0 (M st t : List Char) (hne : M ≠ []) (hM : '\n' ∉ M) :
    countSub M (mid0L st t) =
      countSub M blockStartL + countSub M managedNoticeL +
        countSub M (lastUpdatedL ++ t) + countSub M st := by
  unfold mid0L
  rw [countSub_append_cons_nl M blockStartL _ hne hM]
  rw [countSub_append_cons_nl M managedNoticeL _ hne hM]
  have h3 : lastUpdatedL ++ t ++ '\n' :: '\n' :: st =
      (lastUpdatedL ++ t) ++ '\n' :: ('\n' :: st) := by
    simp [List.append_assoc]
  rw [h3, countSub_append_cons_nl M (lastUpdatedL ++ t) _ hne hM]
  have h4 : countSub M ('\n' :: st) = countSub M st := by
    have h5 := countSub_append_cons_nl M [] st hne hM
    simpa [countSub_nil_of_ne M hne] using h5
  rw [h4]
  omega

/-- A nonempty, newline-free needle is counted segmentwise over the whole
exported content. -/
theorem countSub_exportContent (M : List Char) (hne : M ≠ []) (hM : '\n' ∉ M)
    (E : List Char) (p : Platform) (sn : String) (A : List AliasRecord)
    (t : List Char) :
    countSub M (exportContentL E p sn A t) =
      countSub M (jsTrimEndL (removeBlockL E)) + countSub M blockStartL +
        countSub M managedNoticeL + countSub M (lastUpdatedL ++ t) +
        countSub M (stmtsFor p sn A) + countSub M blockEndL := by
  unfold exportContentL
  rw [aliasBlock_shape]
  rw [countSub_append_cons_nl M (jsTrimEndL (removeBlockL E)) _ hne hM]
  rw [countSub_append_cons_nl M (mid0L (stmtsFor p sn A) t) _ hne hM]
  have hEnd : countSub M (blockEndL ++ ['\n']) = countSub M blockEndL := by
    have h5 := countSub_append_cons_nl M blockEndL [] hne hM
    simpa [countSub_nil_of_ne M hne] using h5
  rw [hEnd, countSub_mid0 M _ t hne hM]
  omega

/-- Position of both markers inside the exported content, when the remainder,
the timestamp line and the rendered statements are marker-free. -/
theorem firstIdx_exportContent_markers (E : List Char) (p : Platform) (sn : String)
    (A : List AliasRecord) (t : List Char)
    (hPs : countSub blockStartL (jsTrimEndL (removeBlockL E)) = 0)
    (hPe : countSub blockEndL (jsTrimEndL (removeBlockL E)) = 0)
    (_hts : countSub blockStartL (lastUpdatedL ++ t) = 0)
    (hte : countSub blockEndL (lastUpdatedL ++ t) = 0)
    (_hss : countSub blockStartL (stmtsFor p sn A) = 0)
    (hse : countSub blockEndL (stmtsFor p sn A) = 0) :
    firstIdx blockStartL (exportContentL E p sn A t) =
      some ((jsTrimEndL (removeBlockL E)).length + 1) ∧
    firstIdx blockEndL (exportContentL E p sn A t) =
      some ((mid0L (stmtsFor p sn A) t).length + 1 +
        ((jsTrimEndL (removeBlockL E)).length + 1)) := by
  unfold exportContentL
  rw [aliasBlock_shape]
  constructor
  · rw [firstIdx_append_cons_nl blockStartL (jsTrimEndL (removeBlockL E)) _
      blockStart_ne_nil nl_not_mem_blockStart
      (firstIdx_none_of_countSub _ _ hPs)]
    have h0 : leads blockStartL
        (mid0L (stmtsFor p sn A) t ++ '\n' :: (blockEndL ++ ['\n'])) = true := by
      unfold mid0L
      rw [List.append_assoc]
      exact leads_self_append _ _
    rw [firstIdx_of_leads _ _ h0]
    simp
  · have hmid : countSub blockEndL (mid0L (stmtsFor p sn A) t) = 0 := by
      rw [countSub_mid0 blockEndL _ t blockEnd_ne_nil nl_not_mem_blockEnd]
      have d1 : countSub blockEndL blockStartL = 0 := by decide
      have d2 : countSub blockEndL managedNoticeL = 0 := by decide
      omega
    rw [firstIdx_append_cons_nl blockEndL (jsTrimEndL (removeBlockL E)) _
      blockEnd_ne_nil nl_not_mem_blockEnd
      (firstIdx_none_of_countSub _ _ hPe)]
    rw [firstIdx_append_cons_nl blockEndL (mid0L (stmtsFor p sn A) t) _
      blockEnd_ne_nil nl_not_mem_blockEnd
      (firstIdx_none_of_countSub _ _ hmid)]
    rw [firstIdx_of_leads _ _ (leads_self_append blockEndL ['\n'])]
    simp

/-- Unfolding of the block-removal step at known marker positions. -/
theorem removeBlockL_eq_of_idx {content : List Char} {s e : Nat}
    (hS : firstIdx blockStartL content = some s)
    (hE : firstIdx blockEndL content = some e) :
    removeBlockL content = content.take s ++ content.drop (e + blockEndL.length) := by
  unfold removeBlockL
  rw [hS, hE]

/-- Re-running block removal on freshly exported content cuts out exactly the
appended block, leaving the remainder plus the two newlines that surrounded
the block. -/
theorem removeBlock_clean (E : List Char) (p : Platform) (sn : String)
    (A : List AliasRecord) (t : List Char)
    (hPs : countSub blockStartL (jsTrimEndL (removeBlockL E)) = 0)
    (hPe : countSub blockEndL (jsTrimEndL (removeBlockL E)) = 0)
    (hts : countSub blockStartL (lastUpdatedL ++ t) = 0)
    (hte : countSub blockEndL (lastUpdatedL ++ t) = 0)
    (hss : countSub blockStartL (stmtsFor p sn A) = 0)
    (hse : countSub blockEndL (stmtsFor p sn A) = 0) :
    removeBlockL (exportContentL E p sn A t) =
      jsTrimEndL (removeBlockL E) ++ ['\n', '\n'] := by
  obtain ⟨hS, hE⟩ := firstIdx_exportContent_markers E p sn A t hPs hPe hts hte hss hse
  rw [removeBlockL_eq_of_idx hS hE]
  have hshape : exportContentL E p sn A t =
      jsTrimEndL (removeBlockL E) ++ '\n' :: (mid0L (stmtsFor p sn A) t ++
        '\n' :: (blockEndL ++ ['\n'])) := by
    unfold exportContentL
    rw [aliasBlock_shape]
  have htake : (exportContentL E p sn A t).take ((jsTrimEndL (removeBlockL E)).length + 1) =
      jsTrimEndL (removeBlockL E) ++ ['\n'] := by
    rw [hshape, take_len_append_plus]
    rfl
  have hG : exportContentL E p sn A t =
      (jsTrimEndL (removeBlockL E) ++ '\n' :: (mid0L (stmtsFor p sn A) t ++
        '\n' :: blockEndL)) ++ ['\n'] := by
    rw [hshape]
    simp [List.append_assoc]
  have hlen : (mid0L (stmtsFor p sn A) t).length + 1 +
      ((jsTrimEndL (removeBlockL E)).length + 1) + blockEndL.length =
      (jsTrimEndL (removeBlockL E) ++ '\n' :: (mid0L (stmtsFor p sn A) t ++
        '\n' :: blockEndL)).length := by
    simp [List.length_append]
    omega
  have hdrop : (exportContentL E p sn A t).drop
      ((mid0L (stmtsFor p sn A) t).length + 1 +
        ((jsTrimEndL (removeBlockL E)).length + 1) + blockEndL.length) = ['\n'] := by
    rw [hlen, hG, drop_len_append]
  rw [htake, hdrop]
  simp

/-- Exporting on top of freshly exported content rebuilds the same remainder
followed by the new block. -/
theorem exportContent_twice (E : List Char) (p : Platform) (sn : String)
    (A : List AliasRecord) (t1 t2 : List Char)
    (hPs : countSub blockStartL (jsTrimEndL (removeBlockL E)) = 0)
    (hPe : countSub blockEndL (jsTrimEndL (removeBlockL E)) = 0)
    (hts : countSub blockStartL (lastUpdatedL ++ t1) = 0)
    (hte : countSub blockEndL (lastUpdatedL ++ t1) = 0)
    (hss : countSub blockStartL (stmtsFor p sn A) = 0)
    (hse : countSub blockEndL (stmtsFor p sn A) = 0) :
    exportContentL (exportContentL E p sn A t1) p sn A t2 =
      exportContentL E p sn A t2 := by
  have h := removeBlock_clean E p sn A t1 hPs hPe hts hte hss hse
  show jsTrimEndL (removeBlockL (exportContentL E p sn A t1)) ++ aliasBlockL p sn A t2 = _
  rw [h, trimEnd_append_ws (jsTrimEndL (removeBlockL E)) ['\n', '\n'] (by decide),
    trimEnd_idem]
  rfl

/-- Line decomposition of freshly exported content, for a newline-free
timestamp. -/
theorem splitNl_exportContent (E : List Char) (p : Platform) (sn : String)
    (A : List AliasRecord) (t : List Char) (hnt : '\n' ∉ t) :
    splitNl (exportContentL E p sn A t) =
      (splitNl (jsTrimEndL (removeBlockL E)) ++ [blockStartL, managedNoticeL]) ++
        (lastUpdatedL ++ t) ::
          (([] :: splitNl (stmtsFor p sn A)) ++ [blockEndL, []]) := by
  unfold exportContentL
  rw [aliasBlock_shape]
  rw [splitNl_append_cons]
  rw [splitNl_append_cons]
  unfold mid0L
  rw [splitNl_append_cons]
  rw [splitNl_append_cons]
  have hassoc : lastUpdatedL ++ t ++ '\n' :: '\n' :: stmtsFor p sn A =
      (lastUpdatedL ++ t) ++ '\n' :: ('\n' :: stmtsFor p sn A) := by
    simp [List.append_assoc]
  rw [hassoc, splitNl_append_cons]
  have h1 : splitNl blockStartL = [blockStartL] :=
    splitNl_of_not_nl _ nl_not_mem_blockStart
  have h2 : splitNl managedNoticeL = [managedNoticeL] :=
    splitNl_of_not_nl _ (by decide)
  have h3 : splitNl (lastUpdatedL ++ t) = [lastUpdatedL ++ t] := by
    apply splitNl_of_not_nl
    intro hm
    rcases List.mem_append.mp hm with h | h
    · exact (by decide : '\n' ∉ lastUpdatedL) h
    · exact hnt h
  have h4 : splitNl ('\n' :: stmtsFor p sn A) = [] :: splitNl (stmtsFor p sn A) := by
    simp [splitNl]
  have h5 : splitNl (blockEndL ++ ['\n']) = [blockEndL, []] := by
    have h6 := splitNl_append_cons blockEndL []
    rw [splitNl_of_not_nl _ nl_not_mem_blockEnd] at h6
    simpa [splitNl] using h6
  rw [h1, h2, h3, h4, h5]
  simp [List.append_assoc]

/-- C1 (amended): re-running the export on freshly exported content yields
content byte-identical apart from the timestamp line, provided the remainder
of the prior content after block removal contains no occurrence of either
marker, the timestamp lines contain no marker and no newline, and the rendered
statements contain no marker.  (The unamended claim fails on prior contents
holding a stray marker, see the counterexample.) -/
theorem c1_theorem (E : List Char) (p : Platform) (sn : String)
    (A : List AliasRecord) (t1 t2 : List Char)
    (hPs : countSub blockStartL (jsTrimEndL (removeBlockL E)) = 0)
    (hPe : countSub blockEndL (jsTrimEndL (removeBlockL E)) = 0)
    (hts : countSub blockStartL (lastUpdatedL ++ t1) = 0)
    (hte : countSub blockEndL (lastUpdatedL ++ t1) = 0)
    (hss : countSub blockStartL (stmtsFor p sn A) = 0)
    (hse : countSub blockEndL (stmtsFor p sn A) = 0)
    (hnt1 : '\n' ∉ t1) (hnt2 : '\n' ∉ t2) :
    eqModTs (exportContentL E p sn A t1)
      (exportContentL (exportContentL E p sn A t1) p sn A t2) = true := by
  unfold eqModTs
  rw [exportContent_twice E p sn A t1 t2 hPs hPe hts hte hss hse]
  rw [splitNl_exportContent E p sn A t1 hnt1, splitNl_exportContent E p sn A t2 hnt2]
  exact eqLines_middle _ _ _ _ (leads_self_append lastUpdatedL t1)
    (leads_self_append lastUpdatedL t2)

/-- C1 (counterexample): starting from a config file holding a stray start
marker with user text after it and no end marker, the first export keeps that
text while the second export deletes it, so the two runs do not agree modulo
the timestamp line even with identical timestamps. -/
theorem c1_counterexample :
    eqModTs
      (exportContentL (blockStartL ++ "\nkeepme".data) Platform.linux "zsh" []
        "2026-01-26T10:00:00.000Z".data)
      (exportContentL
        (exportContentL (blockStartL ++ "\nkeepme".data) Platform.linux "zsh" []
          "2026-01-26T10:00:00.000Z".data) Platform.linux "zsh" []
        "2026-01-26T10:00:00.000Z".data) = false := by
  decide

/-- C1 (witness): the amended idempotence theorem applied at a concrete empty
prior file, one alias and two concrete timestamps. -/
theorem c1_witness :
    countSub blockStartL (jsTrimEndL (removeBlockL ([] : List Char))) = 0 ∧
    eqModTs
      (exportContentL [] Platform.linux "zsh"
        [AliasRecord.mk "1" "gs" "git status" "" [] true "user"]
        "2026-01-26T10:00:00.000Z".data)
      (exportContentL
        (exportContentL [] Platform.linux "zsh"
          [AliasRecord.mk "1" "gs" "git status" "" [] true "user"]
          "2026-01-26T10:00:00.000Z".data) Platform.linux "zsh"
        [AliasRecord.mk "1" "gs" "git status" "" [] true "user"]
        "2026-01-26T10:00:01.000Z".data) = true :=
  ⟨by decide,
    c1_theorem [] Platform.linux "zsh"
      [AliasRecord.mk "1" "gs" "git status" "" [] true "user"]
      "2026-01-26T10:00:00.000Z".data "2026-01-26T10:00:01.000Z".data
      (by decide) (by decide) (by decide) (by decide) (by decide) (by decide)
      (by decide) (by decide)⟩

/-- C7 (amended): when the remainder of the prior content after block removal,
the timestamp line and the rendered statements are marker-free, a successful
export leaves exactly one occurrence of each marker in the written content,
with the start marker strictly before the end marker.  The source locates the
prior block as the first occurrence of each marker independently (no
first-end-after-start search and no start-before-end check), and prior
contents with stray markers can leave more than one block, see the
counterexample. -/
theorem c7_theorem (E : List Char) (p : Platform) (sn : String)
    (A : List AliasRecord) (t : List Char)
    (hPs : countSub blockStartL (jsTrimEndL (removeBlockL E)) = 0)
    (hPe : countSub blockEndL (jsTrimEndL (removeBlockL E)) = 0)
    (hts : countSub blockStartL (lastUpdatedL ++ t) = 0)
    (hte : countSub blockEndL (lastUpdatedL ++ t) = 0)
    (hss : countSub blockStartL (stmtsFor p sn A) = 0)
    (hse : countSub blockEndL (stmtsFor p sn A) = 0) :
    countSub blockStartL (exportContentL E p sn A t) = 1 ∧
    countSub blockEndL (exportContentL E p sn A t) = 1 ∧
    ∃ s e, firstIdx blockStartL (exportContentL E p sn A t) = some s ∧
      firstIdx blockEndL (exportContentL E p sn A t) = some e ∧ s < e := by
  refine ⟨?_, ?_, ?_⟩
  · rw [countSub_exportContent blockStartL blockStart_ne_nil nl_not_mem_blockStart
      E p sn A t]
    have d1 : countSub blockStartL blockStartL = 1 := by decide
    have d2 : countSub blockStartL managedNoticeL = 0 := by decide
    have d3 : countSub blockStartL blockEndL = 0 := by decide
    omega
  · rw [countSub_exportContent blockEndL blockEnd_ne_nil nl_not_mem_blockEnd
      E p sn A t]
    have d1 : countSub blockEndL blockStartL = 0 := by decide
    have d2 : countSub blockEndL managedNoticeL = 0 := by decide
    have d3 : countSub blockEndL blockEndL = 1 := by decide
    omega
  · obtain ⟨hS, hE⟩ := firstIdx_exportContent_markers E p sn A t hPs hPe hts hte hss hse
    exact ⟨_, _, hS, hE, by omega⟩

/-- C7 (counterexample): exporting onto a file that holds a stray start marker
and no end marker produces content with two occurrences of the start marker,
so the resulting file does not have at most one managed block. -/
theorem c7_counterexample :
    countSub blockStartL
      (exportContentL blockStartL Platform.linux "zsh" []
        "2026-01-26T10:00:00.000Z".data) = 2 := by
  decide

/-- C7 (witness): the amended single-block theorem applied at a concrete
marker-free prior file. -/
theorem c7_witness :
    countSub blockStartL (jsTrimEndL (removeBlockL "x".data)) = 0 ∧
    (countSub blockStartL (exportContentL "x".data Platform.linux "zsh" []
        "2026-01-26T10:00:00.000Z".data) = 1 ∧
      countSub blockEndL (exportContentL "x".data Platform.linux "zsh" []
        "2026-01-26T10:00:00.000Z".data) = 1 ∧
      ∃ s e, firstIdx blockStartL (exportContentL "x".data Platform.linux "zsh" []
          "2026-01-26T10:00:00.000Z".data) = some s ∧
        firstIdx blockEndL (exportContentL "x".data Platform.linux "zsh" []
          "2026-01-26T10:00:00.000Z".data) = some e ∧ s < e) :=
  ⟨by decide,
    c7_theorem "x".data Platform.linux "zsh" [] "2026-01-26T10:00:00.000Z".data
      (by decide) (by decide) (by decide) (by decide) (by decide) (by decide)⟩

/-- Quote-escaping introduces only quotes and backslashes. -/
theorem nl_not_mem_escapeSq : ∀ (l : List Char), '\n' ∉ l → '\n' ∉ escapeSq l
  | [], _ => by simp [escapeSq]
  | c :: l', h => by
    have hc : c ≠ '\n' := fun hh => h (by simp [hh])
    have hr := nl_not_mem_escapeSq l' (fun hm => h (List.mem_cons_of_mem c hm))
    intro hm
    simp only [escapeSq] at hm
    rcases List.mem_append.mp hm with h1 | h1
    · by_cases hc2 : c = squote
      · rw [if_pos hc2] at h1
        revert h1
        decide
      · rw [if_neg hc2] at h1
        simp at h1
        exact hc h1.symm
    · exact hr h1

/-- A comment line never starts with the alias keyword. -/
theorem leads_aliasKw_hash (X : List Char) : leads aliasKwL ('#' :: X) = false := by
  have h : aliasKwL = 'a' :: "lias ".data := rfl
  have hne : ¬('a' = '#') := by decide
  rw [h]
  simp [leads, hne]

/-- A rendered Unix statement line contains no newline when the record's name
and command contain none. -/
theorem nl_not_mem_unixAliasLine (a : AliasRecord) (hn : '\n' ∉ a.name.data)
    (hc : '\n' ∉ a.command.data) : '\n' ∉ unixAliasLine a := by
  intro hm
  simp only [unixAliasLine, List.mem_append, List.mem_singleton] at hm
  rcases hm with ((((h1 | h1) | h1) | h1) | h1) | h1
  · exact (by decide : '\n' ∉ aliasKwL) h1
  · exact hn h1
  · exact absurd h1 (by decide)
  · exact absurd h1 (by decide)
  · exact nl_not_mem_escapeSq _ hc h1
  · exact absurd h1 (by decide)

/-- A rendered Unix statement line starts with the alias keyword. -/
theorem leads_aliasKw_unixAliasLine (a : AliasRecord) :
    leads aliasKwL (unixAliasLine a) = true := by
  unfold unixAliasLine
  simp only [List.append_assoc]
  exact leads_self_append _ _

/-- Each rendered record contributes exactly one `alias `-prefixed line to the
Unix statement text. -/
theorem c4_aux : ∀ (l : List AliasRecord),
    (∀ a ∈ l, '\n' ∉ a.name.data ∧ '\n' ∉ a.command.data ∧ '\n' ∉ a.description.data) →
    List.countP (fun ln => leads aliasKwL ln)
      (splitNl ((l.map stmtPieceUnix).flatten)) = l.length
  | [], _ => by decide
  | a :: l', h => by
    have ha := h a (by simp)
    have hr := c4_aux l' (fun b hb => h b (List.mem_cons_of_mem a hb))
    have hline_nl : '\n' ∉ unixAliasLine a := nl_not_mem_unixAliasLine a ha.1 ha.2.1
    simp only [List.map_cons, List.flatten_cons]
    by_cases hd : a.description = ""
    · have hpiece : stmtPieceUnix a ++ (l'.map stmtPieceUnix).flatten =
          unixAliasLine a ++ '\n' :: (l'.map stmtPieceUnix).flatten := by
        simp [stmtPieceUnix, descCommentL, hd]
      rw [hpiece, splitNl_append_cons, splitNl_of_not_nl _ hline_nl]
      rw [List.countP_append]
      rw [hr]
      simp [List.countP_cons, leads_aliasKw_unixAliasLine a]
      omega
    · have hpiece : stmtPieceUnix a ++ (l'.map stmtPieceUnix).flatten =
          ('#' :: ' ' :: a.description.data) ++
            '\n' :: (unixAliasLine a ++ '\n' :: (l'.map stmtPieceUnix).flatten) := by
        simp [stmtPieceUnix, descCommentL, hd, List.append_assoc]
      have hdesc_nl : '\n' ∉ '#' :: ' ' :: a.description.data := by
        intro hm
        simp only [List.mem_cons] at hm
        rcases hm with h1 | h1 | h1
        · exact absurd h1 (by decide)
        · exact absurd h1 (by decide)
        · exact ha.2.2 h1
      rw [hpiece, splitNl_append_cons, splitNl_append_cons,
        splitNl_of_not_nl _ hdesc_nl, splitNl_of_not_nl _ hline_nl]
      rw [List.countP_append, List.countP_append]
      rw [hr]
      simp [List.countP_cons, leads_aliasKw_unixAliasLine a, leads_aliasKw_hash]
      omega

/-- C4 (amended): within one export to a Unix-format target, each enabled
record — regardless of whether its name matches the valid-name pattern —
produces exactly one `alias `-prefixed statement line, and disabled records
produce none (rendering only consults `enabled`; no name validation happens on
export).  Cleanliness hypotheses keep multi-line fields from forging lines. -/
theorem c4_theorem (A : List AliasRecord) (p : Platform) (sn : String)
    (hp : ¬(p = Platform.win32 ∧ sn = "powershell"))
    (hclean : ∀ a ∈ A, a.enabled = true →
      '\n' ∉ a.name.data ∧ '\n' ∉ a.command.data ∧ '\n' ∉ a.description.data) :
    List.countP (fun ln => leads aliasKwL ln) (splitNl (stmtsFor p sn A)) =
      (A.filter (fun a => a.enabled)).length ∧
    stmtsFor p sn A = stmtsFor p sn (A.filter (fun a => a.enabled)) := by
  have hff : (A.filter (fun a => a.enabled)).filter (fun a => a.enabled) =
      A.filter (fun a => a.enabled) :=
    List.filter_eq_self.mpr (fun a ha => (List.mem_filter.mp ha).2)
  constructor
  · unfold stmtsFor
    rw [if_neg hp]
    apply c4_aux
    intro a hamem
    have hm := List.mem_filter.mp hamem
    exact hclean a hm.1 (by simpa using hm.2)
  · unfold stmtsFor
    rw [hff]

/-- C4 (counterexample): an enabled record whose name `-` fails the valid-name
pattern still produces its statement line in the export output (one
`alias `-prefixed line), contradicting the claimed silent exclusion. -/
theorem c4_counterexample :
    validNameL "-".data = false ∧
    List.countP (fun ln => leads aliasKwL ln)
      (splitNl (stmtsFor Platform.linux "zsh"
        [AliasRecord.mk "1" "-" "cd -" "" [] true "system"])) = 1 := by
  decide

/-- C4 (witness): the amended statement-count theorem applied to a concrete
list holding one enabled invalid-name record and one disabled record. -/
theorem c4_witness :
    (¬(Platform.linux = Platform.win32 ∧ "zsh" = "powershell")) ∧
    (List.countP (fun ln => leads aliasKwL ln)
        (splitNl (stmtsFor Platform.linux "zsh"
          [AliasRecord.mk "1" "-" "cd -" "" [] true "system",
           AliasRecord.mk "2" "off" "ls" "" [] false "user"])) =
      ([AliasRecord.mk "1" "-" "cd -" "" [] true "system",
        AliasRecord.mk "2" "off" "ls" "" [] false "user"].filter
          (fun a => a.enabled)).length ∧
    stmtsFor Platform.linux "zsh"
        [AliasRecord.mk "1" "-" "cd -" "" [] true "system",
         AliasRecord.mk "2" "off" "ls" "" [] false "user"] =
      stmtsFor Platform.linux "zsh"
        ([AliasRecord.mk "1" "-" "cd -" "" [] true "system",
          AliasRecord.mk "2" "off" "ls" "" [] false "user"].filter
          (fun a => a.enabled))) :=
  ⟨by decide,
    c4_theorem
      [AliasRecord.mk "1" "-" "cd -" "" [] true "system",
       AliasRecord.mk "2" "off" "ls" "" [] false "user"]
      Platform.linux "zsh" (by decide) (by decide)⟩

/-- A name-pattern character is never ECMAScript whitespace and never `=`. -/
theorem nameChar_facts (c : Char) (h : isNameStart c = true ∨ isNameChar c = true) :
    jsWs c = false ∧ c ≠ '=' := by
  constructor
  · unfold jsWs
    rw [decide_eq_false_iff_not]
    rcases h with h | h
    · simp only [isNameStart, decide_eq_true_eq] at h
      omega
    · simp only [isNameChar, decide_eq_true_eq] at h
      omega
  · intro he
    subst he
    revert h
    decide

/-- Every character of a valid name is in one of the two name classes. -/
theorem validName_all (name : List Char) (h : validNameL name = true) :
    ∀ c ∈ name, isNameStart c = true ∨ isNameChar c = true := by
  cases name with
  | nil => simp [validNameL] at h
  | cons c0 rest =>
    simp only [validNameL, Bool.and_eq_true] at h
    intro c hc
    rcases List.mem_cons.mp hc with h1 | h1
    · subst h1
      exact Or.inl h.1
    · exact Or.inr (List.all_eq_true.mp h.2 c h1)

/-- Trimming is the identity on texts with no whitespace at all. -/
theorem jsTrimL_of_all_nonWs (l : List Char) (h : ∀ c ∈ l, jsWs c = false) :
    jsTrimL l = l := by
  unfold jsTrimL jsTrimEndL
  rw [dropWhile_of_all_false l h]
  rw [dropWhile_of_all_false l.reverse (fun c hc => h c (List.mem_reverse.mp hc))]
  exact List.reverse_reverse l

/-- Trimming at the end is the identity when the last character is not
whitespace. -/
theorem trimEnd_concat_nonWs (Y : List Char) (d : Char) (hd : jsWs d = false) :
    jsTrimEndL (Y ++ [d]) = Y ++ [d] := by
  unfold jsTrimEndL
  rw [List.reverse_append]
  have h1 : ([d].reverse ++ Y.reverse).dropWhile jsWs = [d].reverse ++ Y.reverse := by
    simp [List.dropWhile, hd]
  rw [h1]
  simp

/-- Trimming is the identity when both boundary characters are not whitespace. -/
theorem jsTrimL_keep (c : Char) (mid : List Char) (d : Char)
    (hc : jsWs c = false) (hd : jsWs d = false) :
    jsTrimL (c :: (mid ++ [d])) = c :: (mid ++ [d]) := by
  unfold jsTrimL
  have h1 : (c :: (mid ++ [d])).dropWhile jsWs = c :: (mid ++ [d]) := by
    simp [List.dropWhile, hc]
  rw [h1]
  have h2 : c :: (mid ++ [d]) = (c :: mid) ++ [d] := by simp
  rw [h2, trimEnd_concat_nonWs _ d hd]

/-- The first `=` of a rendered statement sits right after the name. -/
theorem firstIdx_eq_sign (name R : List Char) (h : ∀ a ∈ name, a ≠ '=') :
    firstIdx ['='] (name ++ '=' :: R) = some name.length := by
  induction name with
  | nil => simp [firstIdx, leads]
  | cons a n' ih =>
    have ha : a ≠ '=' := h a (by simp)
    have ih' := ih (fun b hb => h b (List.mem_cons_of_mem a hb))
    have hne : ¬('=' = a) := fun hh => ha hh.symm
    simp only [List.cons_append, firstIdx, List.append_eq]
    have hl : leads ['='] (a :: (n' ++ '=' :: R)) = false := by
      simp [leads, hne]
    rw [hl]
    simp [ih']

/-- Quote-escaping introduces no line terminators. -/
theorem lineTerm_false_escapeSq : ∀ (l : List Char),
    (∀ c ∈ l, isLineTerm c = false) → ∀ c ∈ escapeSq l, isLineTerm c = false
  | [], _ => by simp [escapeSq]
  | c0 :: l', h => by
    have hc := h c0 (by simp)
    have hr := lineTerm_false_escapeSq l' (fun c hc2 => h c (List.mem_cons_of_mem c0 hc2))
    intro c hm
    simp only [escapeSq] at hm
    rcases List.mem_append.mp hm with h1 | h1
    · by_cases hc2 : c0 = squote
      · rw [if_pos hc2] at h1
        simp only [List.mem_cons, List.not_mem_nil, or_false] at h1
        rcases h1 with h1 | h1 | h1 | h1 <;> (rw [h1]; decide)
      · rw [if_neg hc2] at h1
        simp at h1
        rw [h1]
        exact hc
    · exact hr c h1

/-- Quote-escaping is the identity on commands without single quotes. -/
theorem escapeSq_id_of_no_squote : ∀ (l : List Char), squote ∉ l → escapeSq l = l
  | [], _ => rfl
  | c :: l', h => by
    have hc : c ≠ squote := fun hh => h (by simp [hh])
    have hr := escapeSq_id_of_no_squote l' (fun hm => h (List.mem_cons_of_mem c hm))
    simp [escapeSq, hc, hr]

/-- C2 (amended): feeding the rendered POSIX statement line into the Unix
line parser of the importer recovers the name exactly, but recovers the
command in its escaped form — the parser strips one layer of surrounding
quotes and never undoes the quote-escaping — so the recovered pair equals the
original record exactly when the command contains no single quote. -/
theorem c2_theorem (a : AliasRecord) (hv : validNameL a.name.data = true)
    (hlt : ∀ c ∈ a.command.data, isLineTerm c = false) :
    parseOneLine Platform.linux "zsh" (unixAliasLine a) =
      some (a.name.data, escapeSq a.command.data) ∧
    (squote ∉ a.command.data → escapeSq a.command.data = a.command.data) := by
  refine ⟨?_, escapeSq_id_of_no_squote a.command.data⟩
  have hsqws : jsWs squote = false := by decide
  have hX : unixAliasLine a =
      aliasKwL ++ (a.name.data ++ '=' :: squote :: (escapeSq a.command.data ++ [squote])) := by
    unfold unixAliasLine
    simp [List.append_assoc]
  have hleads : leads aliasKwL (unixAliasLine a) = true := leads_aliasKw_unixAliasLine a
  have hdroplen : (unixAliasLine a).drop 6 =
      a.name.data ++ '=' :: squote :: (escapeSq a.command.data ++ [squote]) := by
    rw [hX, show (6 : Nat) = aliasKwL.length from rfl, drop_len_append]
  obtain ⟨c0, n', hn0⟩ : ∃ c0 n', a.name.data = c0 :: n' := by
    cases hnm : a.name.data with
    | nil => rw [hnm] at hv; simp [validNameL] at hv
    | cons c0 n' => exact ⟨c0, n', rfl⟩
  have hnacl := validName_all a.name.data hv
  have hnws : ∀ c ∈ a.name.data, jsWs c = false :=
    fun c hc => (nameChar_facts c (hnacl c hc)).1
  have hneq : ∀ c ∈ a.name.data, c ≠ '=' :=
    fun c hc => (nameChar_facts c (hnacl c hc)).2
  have htrim : jsTrimL (a.name.data ++ '=' :: squote :: (escapeSq a.command.data ++ [squote])) =
      a.name.data ++ '=' :: squote :: (escapeSq a.command.data ++ [squote]) := by
    have hshape : a.name.data ++ '=' :: squote :: (escapeSq a.command.data ++ [squote]) =
        c0 :: ((n' ++ '=' :: squote :: escapeSq a.command.data) ++ [squote]) := by
      rw [hn0]
      simp [List.append_assoc]
    rw [hshape]
    exact jsTrimL_keep c0 _ squote (hnws c0 (by rw [hn0]; simp)) hsqws
  have htake : (a.name.data ++ '=' :: squote :: (escapeSq a.command.data ++ [squote])).take
      a.name.data.length = a.name.data := take_len_append _ _
  have hdrop2 : (a.name.data ++ '=' :: squote :: (escapeSq a.command.data ++ [squote])).drop
      (a.name.data.length + 1) = squote :: (escapeSq a.command.data ++ [squote]) := by
    have h := drop_len_append_plus a.name.data
      ('=' :: squote :: (escapeSq a.command.data ++ [squote])) 1
    simpa using h
  have hany : (squote :: (escapeSq a.command.data ++ [squote])).any isLineTerm = false := by
    apply List.any_eq_false.mpr
    intro c hc
    rw [Bool.not_eq_true]
    rcases List.mem_cons.mp hc with h1 | h1
    · rw [h1]; decide
    · rcases List.mem_append.mp h1 with h2 | h2
      · exact lineTerm_false_escapeSq a.command.data hlt c h2
      · simp at h2; rw [h2]; decide
  have hlen0 : ¬(a.name.data.length = 0) := by rw [hn0]; simp
  have hmatch : matchNameEq (a.name.data ++ '=' :: squote :: (escapeSq a.command.data ++ [squote])) =
      some (a.name.data, squote :: (escapeSq a.command.data ++ [squote])) := by
    simp only [matchNameEq, firstIdx_eq_sign a.name.data _ hneq]
    rw [if_neg hlen0, hdrop2, htake]
    simp [hany]
  have htrimN : jsTrimL a.name.data = a.name.data := jsTrimL_of_all_nonWs _ hnws
  have htrimR : jsTrimL (squote :: (escapeSq a.command.data ++ [squote])) =
      squote :: (escapeSq a.command.data ++ [squote]) :=
    jsTrimL_keep squote _ squote hsqws hsqws
  have hstarts : leads [squote] (squote :: (escapeSq a.command.data ++ [squote])) = true := by
    simp [leads]
  have hlast : (squote :: (escapeSq a.command.data ++ [squote])).getLast? = some squote := by
    rw [show squote :: (escapeSq a.command.data ++ [squote]) =
      (squote :: escapeSq a.command.data) ++ [squote] by simp]
    rw [List.getLast?_concat]
  have hstrip : ((squote :: (escapeSq a.command.data ++ [squote])).drop 1).dropLast =
      escapeSq a.command.data := by
    show (escapeSq a.command.data ++ [squote]).dropLast = escapeSq a.command.data
    rw [List.dropLast_concat]
  have hunix : unixParse (a.name.data ++ '=' :: squote :: (escapeSq a.command.data ++ [squote])) =
      some (a.name.data, escapeSq a.command.data) := by
    simp only [unixParse, hmatch, htrimN, htrimR]
    rw [hstarts, hlast]
    simp [hstrip, hv]
  show parseOneLine Platform.linux "zsh" (unixAliasLine a) = _
  simp only [parseOneLine, hleads, if_true, hdroplen, htrim]
  rw [if_neg (by decide : ¬(Platform.linux = Platform.win32 ∧ "zsh" = "powershell"))]
  rw [if_neg (by decide : ¬(Platform.linux = Platform.win32))]
  exact hunix

/-- C2 (counterexample): for the record with name `gs` and command `a'b`, the
round-trip of the claim fails — the parser returns the escaped command, not
the original one. -/
theorem c2_counterexample :
    parseOneLine Platform.linux "zsh"
      (unixAliasLine (AliasRecord.mk "1" "gs" (String.mk ['a', squote, 'b'])
        "" [] true "user")) ≠
      some ("gs".data, ['a', squote, 'b']) := by
  decide

/-- C2 (witness): the amended round-trip theorem applied to the concrete
record with name `gs` and single-quote-containing command `a'b`. -/
theorem c2_witness :
    validNameL (AliasRecord.mk "1" "gs" (String.mk ['a', squote, 'b'])
      "" [] true "user").name.data = true ∧
    (parseOneLine Platform.linux "zsh"
        (unixAliasLine (AliasRecord.mk "1" "gs" (String.mk ['a', squote, 'b'])
          "" [] true "user")) =
      some ((AliasRecord.mk "1" "gs" (String.mk ['a', squote, 'b'])
          "" [] true "user").name.data,
        escapeSq (AliasRecord.mk "1" "gs" (String.mk ['a', squote, 'b'])
          "" [] true "user").command.data) ∧
    (squote ∉ (AliasRecord.mk "1" "gs" (String.mk ['a', squote, 'b'])
        "" [] true "user").command.data →
      escapeSq (AliasRecord.mk "1" "gs" (String.mk ['a', squote, 'b'])
        "" [] true "user").command.data =
      (AliasRecord.mk "1" "gs" (String.mk ['a', squote, 'b'])
        "" [] true "user").command.data)) :=
  ⟨by decide,
    c2_theorem (AliasRecord.mk "1" "gs" (String.mk ['a', squote, 'b']) "" [] true "user")
      (by decide) (by decide)⟩

/-- A record accepted by the Unix line parser always carries a valid name. -/
theorem unixParse_valid {line : List Char} {nc : List Char × List Char}
    (h : unixParse line = some nc) : validNameL nc.1 = true := by
  cases hm : matchNameEq line with
  | none => simp [unixParse, hm] at h
  | some p =>
    simp only [unixParse, hm] at h
    by_cases hval : validNameL (jsTrimL p.1) = true
    · rw [if_pos hval] at h
      simp only [Option.some.injEq] at h
      rw [← h]
      exact hval
    · rw [if_neg hval] at h
      simp at h

/-- Every record produced by the non-win32 import loop has a valid name. -/
theorem parseLinesGo_valid (sh : String) (idGen : Nat → String) :
    ∀ (i : Nat) (lines : List (List Char)) (r : AliasRecord),
    r ∈ parseLinesGo Platform.linux sh idGen i lines → validNameL r.name.data = true := by
  intro i lines
  induction lines generalizing i with
  | nil => intro r hr; simp [parseLinesGo] at hr
  | cons line rest ih =>
    intro r hr
    simp only [parseLinesGo] at hr
    by_cases he : line.isEmpty = true
    · rw [if_pos he] at hr
      exact ih (i + 1) r hr
    · rw [if_neg he] at hr
      cases hp : parseOneLine Platform.linux sh line with
      | none => rw [hp] at hr; exact ih (i + 1) r hr
      | some nc =>
        rw [hp] at hr
        rcases List.mem_cons.mp hr with h1 | h1
        · have hval : validNameL nc.1 = true := by
            unfold parseOneLine at hp
            rw [if_neg (fun hcontra => absurd hcontra.1 (by decide))] at hp
            rw [if_neg (by decide : ¬(Platform.linux = Platform.win32))] at hp
            exact unixParse_valid hp
          rw [h1]
          exact hval
        · exact ih (i + 1) r h1

/-- C8 (amended): the valid-name rejection applies only to the Unix/POSIX
branch of the importer — every record produced by the non-win32 importer has
a valid name and an invalid-name line like `-='cd -'` is skipped while the remaining
valid lines are still imported; the PowerShell and cmd branches perform no
name validation (see the counterexample). -/
theorem c8_theorem :
    (∀ (sh : String) (execResult : Except String (String × String))
        (idGen : Nat → String),
      (parseAliasesFromShell Platform.linux sh execResult idGen).all
        (fun r => validNameL r.name.data) = true) ∧
    (parseAliasesFromShell Platform.linux "zsh"
        (Except.ok (String.mk (('-' :: '=' :: squote :: ("cd -".data ++ [squote])) ++
          '\n' :: ("ll=".data ++ squote :: ("ls -la".data ++ [squote]))), ""))
        (fun _ => "id")).map (fun r => (r.name, r.command)) = [("ll", "ls -la")] := by
  constructor
  · intro sh execResult idGen
    apply List.all_eq_true.mpr
    intro r hr
    cases execResult with
    | error e => simp [parseAliasesFromShell] at hr
    | ok out =>
      simp only [parseAliasesFromShell] at hr
      exact parseLinesGo_valid sh idGen 0 _ r hr
  · decide

/-- C8 (counterexample): on win32 with the cmd shell, the import line parser
accepts the line `-=cd -` and returns a record whose name `-` fails the
valid-name pattern — the name rejection does not apply to every shell. -/
theorem c8_counterexample :
    (parseAliasesFromShell Platform.win32 "cmd"
        (Except.ok (String.mk ('-' :: '=' :: "cd -".data), ""))
        (fun _ => "id")).map (fun r => r.name) = ["-"] ∧
    validNameL "-".data = false := by
  decide

/-- C9 (amended): when invoking the shell fails, `parseAliasesFromShell`
catches the error and returns the empty list, so the `aliases:import` handler
reports success with an empty alias list, zero count and no error description
(its own catch branch is unreachable); no fatal error is raised. -/
theorem c9_theorem (platform : Platform) (shellName : String) (e : String)
    (idGen : Nat → String) :
    aliasesImportHandler platform shellName (Except.error e) idGen =
      ImportResult.mk true [] 0 none := rfl

/-- C9 (counterexample): on a spawn failure the import result is a success
carrying no error description, contradicting the claimed failure-carrying
result. -/
theorem c9_counterexample :
    (aliasesImportHandler Platform.linux "zsh"
        (Except.error "spawn /bin/zsh ENOENT") (fun _ => "id")).success = true ∧
    (aliasesImportHandler Platform.linux "zsh"
        (Except.error "spawn /bin/zsh ENOENT") (fun _ => "id")).error = none ∧
    (aliasesImportHandler Platform.linux "zsh"
        (Except.error "spawn /bin/zsh ENOENT") (fun _ => "id")).aliases = [] :=
  ⟨rfl, rfl, rfl⟩

/-- C10 (confirmed): for every path whose normalized form contains `..`, each
of the `file:read`, `file:write` and `file:backup` handlers takes the
validation-error branch: it returns a failure result (success false with the
`Invalid file path` error) instead of throwing, leaves the filesystem
untouched, and attempts no filesystem operation on any path. -/
theorem c10_theorem (normalize : String → String) (fs : Fs)
    (filePath content tBackup : String)
    (h : hasSubL "..".data (normalize filePath).data = true) :
    fileReadHandler normalize fs filePath =
      (IpcFileResult.mk false none (some "Invalid file path") none, fs, []) ∧
    fileWriteHandler normalize fs filePath content =
      (IpcFileResult.mk false none (some "Invalid file path") none, fs, []) ∧
    fileBackupHandler normalize fs filePath tBackup =
      (IpcFileResult.mk false none (some "Invalid file path") none, fs, []) := by
  have hv : validateFilePath normalize filePath = Except.error "Invalid file path" := by
    unfold validateFilePath
    rw [if_pos h]
  refine ⟨?_, ?_, ?_⟩ <;>
    simp [fileReadHandler, fileWriteHandler, fileBackupHandler, hv]

/-- C10 (witness): the traversal-rejection theorem applied to the concrete
path `../etc/passwd` with the identity normalizer. -/
theorem c10_witness :
    hasSubL "..".data ((fun s => s) "../etc/passwd" : String).data = true ∧
    fileReadHandler (fun s => s) (Fs.mk [] none none) "../etc/passwd" =
      (IpcFileResult.mk false none (some "Invalid file path") none,
        Fs.mk [] none none, []) :=
  ⟨by decide,
    (c10_theorem (fun s => s) (Fs.mk [] none none) "../etc/passwd" "x" "t"
      (by decide)).1⟩

/-- Concatenating strings concatenates their character data. -/
theorem strData_append (s t : String) : (s ++ t).data = s.data ++ t.data := by
  cases s
  cases t
  rfl

/-- A stored file is found under its own path. -/
theorem lookup_setFile_same (m : List (String × String)) (p c : String) :
    lookupFile (setFile m p c) p = some c := by
  simp [setFile, lookupFile]

/-- Erasing one path leaves lookups of other paths unchanged. -/
theorem lookup_eraseFile_other (m : List (String × String)) (p q : String)
    (h : q ≠ p) : lookupFile (eraseFile m p) q = lookupFile m q := by
  induction m with
  | nil => rfl
  | cons e rest ih =>
    show lookupFile ((e :: rest).filter (fun x => decide (x.1 ≠ p))) q = _
    rw [List.filter_cons]
    by_cases he : e.1 = p
    · have hdec : decide (e.1 ≠ p) = false := by simp [he]
      rw [hdec]
      simp only [Bool.false_eq_true, if_false]
      have hq : ¬(e.1 = q) := fun hh => h (by rw [← hh, he])
      show lookupFile (eraseFile rest p) q = lookupFile (e :: rest) q
      rw [ih]
      simp [lookupFile, hq]
    · have hdec : decide (e.1 ≠ p) = true := by simp [he]
      rw [hdec]
      simp only [if_true]
      show lookupFile (e :: eraseFile rest p) q = _
      simp only [lookupFile]
      rw [ih]

/-- Storing one path leaves lookups of other paths unchanged. -/
theorem lookup_setFile_other (m : List (String × String)) (p c q : String)
    (h : q ≠ p) : lookupFile (setFile m p c) q = lookupFile m q := by
  have hq : ¬(p = q) := fun hh => h hh.symm
  simp only [setFile, lookupFile, hq, if_false]
  exact lookup_eraseFile_other m p q h

/-- Erasing a path that is not stored is the identity. -/
theorem eraseFile_of_lookup_none (m : List (String × String)) (p : String)
    (h : lookupFile m p = none) : eraseFile m p = m := by
  induction m with
  | nil => rfl
  | cons e rest ih =>
    simp only [lookupFile] at h
    by_cases he : e.1 = p
    · rw [if_pos he] at h
      simp at h
    · rw [if_neg he] at h
      simp [eraseFile, List.filter_cons, he]
      simpa [eraseFile] using ih h

/-- An initial segment is never longer than the whole. -/
theorem leads_length_le : ∀ (M X : List Char), leads M X = true → M.length ≤ X.length
  | [], _, _ => by simp
  | _ :: _, [], h => by simp [leads] at h
  | a :: as, b :: bs, h => by
    simp only [leads] at h
    by_cases hab : a = b
    · rw [if_pos hab] at h
      have := leads_length_le as bs h
      simp only [List.length_cons]
      omega
    · rw [if_neg hab] at h
      simp at h

/-- The config path itself is never counted as one of its backups. -/
theorem backupPred_cfg_false (cfg : String) :
    leads (cfg.data ++ ".aliasforge-backup-".data) cfg.data = false := by
  cases hl : leads (cfg.data ++ ".aliasforge-backup-".data) cfg.data with
  | false => rfl
  | true =>
    have hle := leads_length_le _ _ hl
    rw [List.length_append] at hle
    have h19 : (".aliasforge-backup-".data).length = 19 := by decide
    omega

/-- Erasing entries of a path with a false predicate keeps the count. -/
theorem countP_eraseFile (m : List (String × String)) (cfg : String)
    (pred : String × String → Bool)
    (hpred : ∀ e : String × String, e.1 = cfg → pred e = false) :
    List.countP pred (eraseFile m cfg) = List.countP pred m := by
  induction m with
  | nil => rfl
  | cons e rest ih =>
    show List.countP pred ((e :: rest).filter (fun x => decide (x.1 ≠ cfg))) = _
    rw [List.filter_cons]
    by_cases he : e.1 = cfg
    · have hdec : decide (e.1 ≠ cfg) = false := by simp [he]
      rw [hdec]
      simp only [Bool.false_eq_true, if_false]
      show List.countP pred (eraseFile rest cfg) = _
      rw [ih, List.countP_cons, hpred e he]
      simp
    · have hdec : decide (e.1 ≠ cfg) = true := by simp [he]
      rw [hdec]
      simp only [if_true]
      show List.countP pred (e :: eraseFile rest cfg) = _
      rw [List.countP_cons, List.countP_cons, ih]

/-- Overwriting the config file itself never changes the backup count. -/
theorem countBackups_setFile_cfg (m : List (String × String)) (cfg c : String) :
    countBackups (setFile m cfg c) cfg = countBackups m cfg := by
  unfold countBackups setFile
  rw [List.countP_cons]
  have hpred : ∀ e : String × String, e.1 = cfg →
      leads (cfg.data ++ ".aliasforge-backup-".data) e.1.data = false := by
    intro e he
    rw [he]
    exact backupPred_cfg_false cfg
  rw [countP_eraseFile m cfg _ hpred]
  simp [backupPred_cfg_false cfg]

/-- The config path differs from every one of its backup paths. -/
theorem cfg_ne_bkp (cfg tBackup : String) :
    cfg ≠ cfg ++ ".aliasforge-backup-" ++ isoSanitize tBackup := by
  intro hcontra
  have hd := congrArg String.data hcontra
  rw [strData_append, strData_append] at hd
  have hlen := congrArg List.length hd
  rw [List.length_append, List.length_append] at hlen
  have h19 : (".aliasforge-backup-".data).length = 19 := by decide
  omega

/-- Full run of the export when the target file exists and neither the copy
nor the write fails: the old content is copied to the backup path and the new
content replaces the file. -/
theorem writeAliases_run_existing (fs : Fs) (platform : Platform) (home : String)
    (aliases : List AliasRecord) (shellName tBackup tBlock old cfg bkp : String)
    (hcfg : cfg = getShellConfigPath platform home shellName)
    (hbkp : bkp = cfg ++ ".aliasforge-backup-" ++ isoSanitize tBackup)
    (hcf : fs.copyFail = none) (hwf : fs.writeFail = none)
    (hlook : lookupFile fs.files cfg = some old) :
    writeAliasesToShell fs platform home aliases shellName tBackup tBlock =
      (Except.ok (cfg, bkp),
       Fs.mk (setFile (setFile fs.files bkp old) cfg
           (exportContentStr old platform shellName aliases tBlock))
         fs.copyFail fs.writeFail) := by
  subst hcfg
  subst hbkp
  have h1 : lookupFile (setFile fs.files
      (getShellConfigPath platform home shellName ++ ".aliasforge-backup-" ++
        isoSanitize tBackup) old) (getShellConfigPath platform home shellName) =
      some old := by
    rw [lookup_setFile_other _ _ _ _ (cfg_ne_bkp _ tBackup)]
    exact hlook
  simp only [writeAliasesToShell, fsCopyFile, hcf, hlook, fsReadFile, h1,
    fsWriteFile, hwf]

/-- Full run of the export when the target file does not exist: the backup
copy fails with ENOENT and is swallowed, the read failure yields empty
existing content, and the new content is written. -/
theorem writeAliases_run_missing (fs : Fs) (platform : Platform) (home : String)
    (aliases : List AliasRecord) (shellName tBackup tBlock cfg bkp : String)
    (hcfg : cfg = getShellConfigPath platform home shellName)
    (hbkp : bkp = cfg ++ ".aliasforge-backup-" ++ isoSanitize tBackup)
    (hcf : fs.copyFail = none) (hwf : fs.writeFail = none)
    (hlook : lookupFile fs.files cfg = none) :
    writeAliasesToShell fs platform home aliases shellName tBackup tBlock =
      (Except.ok (cfg, bkp),
       Fs.mk (setFile fs.files cfg
           (exportContentStr "" platform shellName aliases tBlock))
         fs.copyFail fs.writeFail) := by
  subst hcfg
  subst hbkp
  simp only [writeAliasesToShell, fsCopyFile, hcf, hlook, fsReadFile, fsWriteFile, hwf]

/-- Full run of the export when the backup copy fails with an injected error
(such as disk full) on an existing target: the failure is swallowed by the
catch and the write still happens. -/
theorem writeAliases_run_copyfail (fs : Fs) (platform : Platform) (home : String)
    (aliases : List AliasRecord) (shellName tBackup tBlock old cfg bkp e : String)
    (hcfg : cfg = getShellConfigPath platform home shellName)
    (hbkp : bkp = cfg ++ ".aliasforge-backup-" ++ isoSanitize tBackup)
    (hcf : fs.copyFail = some e) (hwf : fs.writeFail = none)
    (hlook : lookupFile fs.files cfg = some old) :
    writeAliasesToShell fs platform home aliases shellName tBackup tBlock =
      (Except.ok (cfg, bkp),
       Fs.mk (setFile fs.files cfg
           (exportContentStr old platform shellName aliases tBlock))
         fs.copyFail fs.writeFail) := by
  subst hcfg
  subst hbkp
  simp only [writeAliasesToShell, fsCopyFile, hcf, hlook, fsReadFile, fsWriteFile, hwf]

/-- C3 (amended): a failing backup copy on an existing target does not abort
the export — the error is swallowed by the catch, the target file is
overwritten with the new content (its bytes change), no backup is preserved,
and the operation still reports success. -/
theorem c3_theorem (fs : Fs) (platform : Platform) (home : String)
    (aliases : List AliasRecord) (shellName tBackup tBlock old e : String)
    (hcf : fs.copyFail = some e) (hwf : fs.writeFail = none)
    (hlook : lookupFile fs.files (getShellConfigPath platform home shellName) =
      some old) :
    (writeAliasesToShell fs platform home aliases shellName tBackup tBlock).1 =
      Except.ok (getShellConfigPath platform home shellName,
        getShellConfigPath platform home shellName ++ ".aliasforge-backup-" ++
          isoSanitize tBackup) ∧
    lookupFile
      (writeAliasesToShell fs platform home aliases shellName tBackup tBlock).2.files
      (getShellConfigPath platform home shellName) =
      some (exportContentStr old platform shellName aliases tBlock) ∧
    (∀ q, q ≠ getShellConfigPath platform home shellName →
      lookupFile
        (writeAliasesToShell fs platform home aliases shellName tBackup tBlock).2.files
        q = lookupFile fs.files q) := by
  have hrun := writeAliases_run_copyfail fs platform home aliases shellName tBackup
    tBlock old _ _ e rfl rfl hcf hwf hlook
  rw [hrun]
  refine ⟨rfl, ?_, ?_⟩
  · exact lookup_setFile_same _ _ _
  · intro q hq
    exact lookup_setFile_other _ _ _ q hq

/-- C3 (counterexample): with an existing `.zshrc` and a disk-full failure
injected into the backup copy, the export still overwrites the file (its
bytes change), creates no backup, and reports success — it does not abort. -/
theorem c3_counterexample :
    (writeAliasesToShell
        (Fs.mk [("/home/u/.zshrc", "old")] (some "EDQUOT: disk full") none)
        Platform.linux "/home/u" [] "zsh"
        "2026-01-26T10:00:00.000Z" "2026-01-26T10:00:00.000Z").1 =
      Except.ok ("/home/u/.zshrc",
        "/home/u/.zshrc.aliasforge-backup-2026-01-26T10-00-00-000Z") ∧
    lookupFile (writeAliasesToShell
        (Fs.mk [("/home/u/.zshrc", "old")] (some "EDQUOT: disk full") none)
        Platform.linux "/home/u" [] "zsh"
        "2026-01-26T10:00:00.000Z" "2026-01-26T10:00:00.000Z").2.files
      "/home/u/.zshrc" ≠ some "old" ∧
    lookupFile (writeAliasesToShell
        (Fs.mk [("/home/u/.zshrc", "old")] (some "EDQUOT: disk full") none)
        Platform.linux "/home/u" [] "zsh"
        "2026-01-26T10:00:00.000Z" "2026-01-26T10:00:00.000Z").2.files
      "/home/u/.zshrc.aliasforge-backup-2026-01-26T10-00-00-000Z" = none := by
  refine ⟨rfl, ?_, rfl⟩
  decide

/-- C3 (witness): the amended swallow-and-write theorem applied to a concrete
filesystem with an injected disk-full copy failure. -/
theorem c3_witness :
    (Fs.mk [("/home/u/.zshrc", "old")] (some "EDQUOT: disk full") none).copyFail =
      some "EDQUOT: disk full" ∧
    lookupFile (writeAliasesToShell
        (Fs.mk [("/home/u/.zshrc", "old")] (some "EDQUOT: disk full") none)
        Platform.linux "/home/u" [] "zsh"
        "2026-01-26T10:00:00.000Z" "2026-01-26T10:00:00.000Z").2.files
      (getShellConfigPath Platform.linux "/home/u" "zsh") =
      some (exportContentStr "old" Platform.linux "zsh" []
        "2026-01-26T10:00:00.000Z") :=
  ⟨rfl,
    (c3_theorem (Fs.mk [("/home/u/.zshrc", "old")] (some "EDQUOT: disk full") none)
      Platform.linux "/home/u" [] "zsh"
      "2026-01-26T10:00:00.000Z" "2026-01-26T10:00:00.000Z" "old"
      "EDQUOT: disk full" rfl rfl (by decide)).2.1⟩

/-- C5 (amended): on a successful export to an existing file a backup with the
pre-export bytes exists afterward, but at the sibling path with suffix
`.aliasforge-backup-` (not `.backup-`, which is the suffix of the separate
`file:backup` IPC handler); when the target does not exist, no path other than
the target changes (no backup) and the export still succeeds. -/
theorem c5_theorem (fs : Fs) (platform : Platform) (home : String)
    (aliases : List AliasRecord) (shellName tBackup tBlock : String)
    (hcf : fs.copyFail = none) (hwf : fs.writeFail = none) :
    (∀ old : String,
      lookupFile fs.files (getShellConfigPath platform home shellName) = some old →
      (writeAliasesToShell fs platform home aliases shellName tBackup tBlock).1 =
        Except.ok (getShellConfigPath platform home shellName,
          getShellConfigPath platform home shellName ++ ".aliasforge-backup-" ++
            isoSanitize tBackup) ∧
      lookupFile
        (writeAliasesToShell fs platform home aliases shellName tBackup tBlock).2.files
        (getShellConfigPath platform home shellName ++ ".aliasforge-backup-" ++
          isoSanitize tBackup) = some old) ∧
    (lookupFile fs.files (getShellConfigPath platform home shellName) = none →
      (writeAliasesToShell fs platform home aliases shellName tBackup tBlock).1 =
        Except.ok (getShellConfigPath platform home shellName,
          getShellConfigPath platform home shellName ++ ".aliasforge-backup-" ++
            isoSanitize tBackup) ∧
      (∀ q, q ≠ getShellConfigPath platform home shellName →
        lookupFile
          (writeAliasesToShell fs platform home aliases shellName tBackup tBlock).2.files
          q = lookupFile fs.files q)) := by
  constructor
  · intro old hlook
    have hrun := writeAliases_run_existing fs platform home aliases shellName tBackup
      tBlock old _ _ rfl rfl hcf hwf hlook
    rw [hrun]
    refine ⟨rfl, ?_⟩
    rw [lookup_setFile_other _ _ _ _
      (fun hh => cfg_ne_bkp (getShellConfigPath platform home shellName) tBackup hh.symm)]
    exact lookup_setFile_same _ _ _
  · intro hlook
    have hrun := writeAliases_run_missing fs platform home aliases shellName tBackup
      tBlock _ _ rfl rfl hcf hwf hlook
    rw [hrun]
    exact ⟨rfl, fun q hq => lookup_setFile_other _ _ _ q hq⟩

/-- C5 (counterexample): after a successful export over an existing `.zshrc`,
no file exists at the claimed `.backup-` sibling path — the export backup
lives at the `.aliasforge-backup-` path instead. -/
theorem c5_counterexample :
    lookupFile (writeAliasesToShell (Fs.mk [("/home/u/.zshrc", "old")] none none)
        Platform.linux "/home/u" [] "zsh"
        "2026-01-26T10:00:00.000Z" "2026-01-26T10:00:00.000Z").2.files
      "/home/u/.zshrc.backup-2026-01-26T10-00-00-000Z" = none ∧
    lookupFile (writeAliasesToShell (Fs.mk [("/home/u/.zshrc", "old")] none none)
        Platform.linux "/home/u" [] "zsh"
        "2026-01-26T10:00:00.000Z" "2026-01-26T10:00:00.000Z").2.files
      "/home/u/.zshrc.aliasforge-backup-2026-01-26T10-00-00-000Z" = some "old" ∧
    (writeAliasesToShell (Fs.mk [("/home/u/.zshrc", "old")] none none)
        Platform.linux "/home/u" [] "zsh"
        "2026-01-26T10:00:00.000Z" "2026-01-26T10:00:00.000Z").1 =
      Except.ok ("/home/u/.zshrc",
        "/home/u/.zshrc.aliasforge-backup-2026-01-26T10-00-00-000Z") := by
  refine ⟨?_, ?_, rfl⟩ <;> decide

/-- C5 (witness): the amended backup-before-write theorem applied to a
concrete filesystem, in both the existing-target and missing-target cases. -/
theorem c5_witness :
    (Fs.mk [("/home/u/.zshrc", "old")] none none).copyFail = none ∧
    lookupFile (writeAliasesToShell (Fs.mk [("/home/u/.zshrc", "old")] none none)
        Platform.linux "/home/u" [] "zsh"
        "2026-01-26T10:00:00.000Z" "2026-01-26T10:00:00.000Z").2.files
      (getShellConfigPath Platform.linux "/home/u" "zsh" ++ ".aliasforge-backup-" ++
        isoSanitize "2026-01-26T10:00:00.000Z") = some "old" ∧
    (writeAliasesToShell (Fs.mk [] none none)
        Platform.linux "/home/u" [] "zsh"
        "2026-01-26T10:00:00.000Z" "2026-01-26T10:00:00.000Z").1 =
      Except.ok (getShellConfigPath Platform.linux "/home/u" "zsh",
        getShellConfigPath Platform.linux "/home/u" "zsh" ++ ".aliasforge-backup-" ++
          isoSanitize "2026-01-26T10:00:00.000Z") :=
  ⟨rfl,
    ((c5_theorem (Fs.mk [("/home/u/.zshrc", "old")] none none) Platform.linux
        "/home/u" [] "zsh" "2026-01-26T10:00:00.000Z" "2026-01-26T10:00:00.000Z"
        rfl rfl).1 "old" (by decide)).2,
    ((c5_theorem (Fs.mk [] none none) Platform.linux "/home/u" [] "zsh"
        "2026-01-26T10:00:00.000Z" "2026-01-26T10:00:00.000Z" rfl rfl).2
      (by decide)).1⟩

/-- Storing a fresh backup raises the backup count by exactly one. -/
theorem countBackups_setFile_fresh (m : List (String × String)) (cfg bkp c : String)
    (hpred : leads (cfg.data ++ ".aliasforge-backup-".data) bkp.data = true)
    (hfresh : lookupFile m bkp = none) :
    countBackups (setFile m bkp c) cfg = countBackups m cfg + 1 := by
  unfold countBackups setFile
  rw [eraseFile_of_lookup_none _ _ hfresh, List.countP_cons]
  have happ : leads (cfg.data ++ ".aliasforge-backup-".data) (bkp, c).1.data = true :=
    hpred
  rw [if_pos happ]

/-- C6 (amended): no backup retention is implemented — `backupCount` from the
default settings (value 5) is never consulted and nothing is ever deleted, so
every successful export over an existing target with a fresh timestamp
increases the number of backup snapshots for that path by one, without bound. -/
theorem c6_theorem (fs : Fs) (platform : Platform) (home : String)
    (aliases : List AliasRecord) (shellName tBackup tBlock old : String)
    (hcf : fs.copyFail = none) (hwf : fs.writeFail = none)
    (hlook : lookupFile fs.files (getShellConfigPath platform home shellName) =
      some old)
    (hfresh : lookupFile fs.files
      (getShellConfigPath platform home shellName ++ ".aliasforge-backup-" ++
        isoSanitize tBackup) = none) :
    countBackups
      (writeAliasesToShell fs platform home aliases shellName tBackup tBlock).2.files
      (getShellConfigPath platform home shellName) =
      countBackups fs.files (getShellConfigPath platform home shellName) + 1 ∧
    (getDefaultSettings platform home).backupCount = 5 := by
  constructor
  · have hrun := writeAliases_run_existing fs platform home aliases shellName tBackup
      tBlock old _ _ rfl rfl hcf hwf hlook
    rw [hrun]
    show countBackups (setFile (setFile fs.files _ old) _ _) _ = _
    rw [countBackups_setFile_cfg]
    have hdata : (getShellConfigPath platform home shellName ++ ".aliasforge-backup-" ++
        isoSanitize tBackup).data =
        ((getShellConfigPath platform home shellName).data ++
          ".aliasforge-backup-".data) ++ (isoSanitize tBackup).data := by
      rw [strData_append, strData_append]
    have hpredtrue : leads ((getShellConfigPath platform home shellName).data ++
        ".aliasforge-backup-".data)
        (getShellConfigPath platform home shellName ++ ".aliasforge-backup-" ++
          isoSanitize tBackup).data = true := by
      rw [hdata]
      exact leads_self_append _ _
    exact countBackups_setFile_fresh fs.files _ _ old hpredtrue hfresh
  · cases platform <;> rfl

/-- C6 (counterexample): with five snapshots already present, a successful
export leaves six — more than the configured default `backupCount` of 5 —
because no pruning ever happens. -/
theorem c6_counterexample :
    countBackups (writeAliasesToShell (Fs.mk
        [("/home/u/.zshrc", "x"),
         ("/home/u/.zshrc.aliasforge-backup-2026-01-01T00-00-00-000Z", "b1"),
         ("/home/u/.zshrc.aliasforge-backup-2026-01-02T00-00-00-000Z", "b2"),
         ("/home/u/.zshrc.aliasforge-backup-2026-01-03T00-00-00-000Z", "b3"),
         ("/home/u/.zshrc.aliasforge-backup-2026-01-04T00-00-00-000Z", "b4"),
         ("/home/u/.zshrc.aliasforge-backup-2026-01-05T00-00-00-000Z", "b5")]
        none none)
      Platform.linux "/home/u" [] "zsh"
      "2026-01-06T00:00:00.000Z" "2026-01-06T00:00:00.000Z").2.files
      "/home/u/.zshrc" = 6 ∧
    ¬(6 ≤ (getDefaultSettings Platform.linux "/home/u").backupCount) := by
  constructor
  · decide
  · decide

/-- C6 (witness): the amended no-pruning theorem applied to a concrete
filesystem with one existing snapshot. -/
theorem c6_witness :
    (Fs.mk [("/home/u/.zshrc", "x")] none none).copyFail = none ∧
    (countBackups (writeAliasesToShell (Fs.mk [("/home/u/.zshrc", "x")] none none)
        Platform.linux "/home/u" [] "zsh"
        "2026-01-06T00:00:00.000Z" "2026-01-06T00:00:00.000Z").2.files
      (getShellConfigPath Platform.linux "/home/u" "zsh") =
      countBackups (Fs.mk [("/home/u/.zshrc", "x")] none none).files
        (getShellConfigPath Platform.linux "/home/u" "zsh") + 1 ∧
    (getDefaultSettings Platform.linux "/home/u").backupCount = 5) :=
  ⟨rfl,
    c6_theorem (Fs.mk [("/home/u/.zshrc", "x")] none none) Platform.linux "/home/u"
      [] "zsh" "2026-01-06T00:00:00.000Z" "2026-01-06T00:00:00.000Z" "x"
      rfl rfl (by decide) (by decide)⟩
